import Mathlib

namespace Orch

/-- Modelled from the spec: opaque structured result payloads exchanged between
steps (section 3).  The orchestration engine itself lives in the external
`ai-agent-sdk-orchestrator` package and is absent from the repository sources;
only its documentation (README.md, docs/functionalities.md) and its caller
(advanced_orchestrator.ts) are present, so the engine is modelled from the
specification text. -/
inductive Value where
  | str (s : String)
  | obj (fields : List (String × Value))

/-- Modelled from the spec: typed failures of the external ModelInvoker
collaborator (section 6). -/
inductive InvokeError where
  | AuthError
  | RateLimited
  | Timeout
  | ProviderError
deriving DecidableEq

/-- Modelled from the spec: the error taxonomy of section 7. -/
inductive EngineError where
  | DuplicateId (id : String)
  | InvalidConfig (msg : String)
  | UnknownAgent (agentId : String)
  | NotFound (id : String)
  | MissingVariable (id : String)
  | DuplicateWrite (id : String)
  | InvalidExpression
  | AllModelsExhausted (errors : List InvokeError)
  | WorkflowTimeout
deriving DecidableEq

/-- Rendering of an engine error into the `error` string field of a
HistoryEntry (the README shows `error?: string`). -/
def errString : EngineError → String
  | .DuplicateId id => "DuplicateId: " ++ id
  | .InvalidConfig msg => "InvalidConfig: " ++ msg
  | .UnknownAgent aid => "UnknownAgent: " ++ aid
  | .NotFound id => "NotFound: " ++ id
  | .MissingVariable id => "MissingVariable: " ++ id
  | .DuplicateWrite id => "DuplicateWrite: " ++ id
  | .InvalidExpression => "InvalidExpression"
  | .AllModelsExhausted _ => "AllModelsExhausted"
  | .WorkflowTimeout => "WorkflowTimeout"

/-- Modelled from the spec: an Agent's model configuration, section 3 (the
README constructor shows provider, model, fallbackModels, temperature,
maxTokens, timeout). -/
structure ModelSpec where
  provider : String
  primaryModel : String
  fallbackModels : List String
  temperature : Rat
  maxTokens : Nat
  timeout : Nat

/-- Modelled from the spec: an Agent, immutable once registered (section 3). -/
structure Agent where
  id : String
  name : String
  modelSpec : ModelSpec
  systemPrompt : String

/-- Modelled from the spec: the injected ModelInvoker capability
`invoke(model, systemPrompt, input, ...) -> text | fails` (section 6).  The
first argument is a global attempt counter, letting one stub give different
outcomes on different attempts (transient failures). -/
abbrev Invoker := Nat → String → String → Value → Except InvokeError Value

/-- Modelled from the spec, section 4.4: the attempt order of the
RetryPolicy/FallbackResolver for an AgentStep with `retries = r`: the primary
model `r+1` times, then each fallback model once, in declared order. -/
def attemptModels (ms : ModelSpec) (retries : Nat) : List String :=
  List.replicate (retries + 1) ms.primaryModel ++ ms.fallbackModels

/-- Modelled from the spec, section 4.4: walk the attempt list, stopping at the
first success, accumulating the per-attempt errors.  Returns the result, the
list of models actually attempted (in order) and the next free attempt index. -/
def runModels (inv : Invoker) (sys : String) (input : Value) :
    Nat → List String → List InvokeError →
    Except (List InvokeError) Value × List String × Nat
  | aidx, [], errs => (.error errs.reverse, [], aidx)
  | aidx, m :: rest, errs =>
    match inv aidx m sys input with
    | .ok v => (.ok v, [m], aidx + 1)
    | .error e =>
      let r := runModels inv sys input (aidx + 1) rest (e :: errs)
      (r.1, m :: r.2.1, r.2.2)

/-- Modelled from the spec, section 4.4: the RetryPolicy/FallbackResolver
around one AgentStep invocation. -/
def resolveFallback (inv : Invoker) (ag : Agent) (retries : Nat) (input : Value)
    (aidx : Nat) : Except (List InvokeError) Value × List String × Nat :=
  runModels inv ag.systemPrompt input aidx (attemptModels ag.modelSpec retries) []

/-- Modelled from the spec, section 4.2: an ordered, append-only mapping from
step identifier to the step's committed output, scoped to one execution. -/
abbrev VariableStore := List (String × Value)

/-- The keys (step ids) committed in a VariableStore, in commit order. -/
def VariableStore.keys (vs : VariableStore) : List String := vs.map Prod.fst

/-- Modelled from the spec, section 4.2: `set(id, value)` fails with
`DuplicateWrite` if `id` is already committed; otherwise it appends. -/
def VariableStore.set (vs : VariableStore) (id : String) (v : Value) :
    Except EngineError VariableStore :=
  if (VariableStore.keys vs).contains id then .error (.DuplicateWrite id)
  else .ok (vs ++ [(id, v)])

/-- Modelled from the spec, section 4.2: `get(id)` fails with `MissingVariable`
if absent. -/
def VariableStore.get (vs : VariableStore) (id : String) :
    Except EngineError Value :=
  match vs.find? (fun p => p.1 == id) with
  | some p => .ok p.2
  | none => .error (.MissingVariable id)

/-- Length of a value: string length for text, field count for mappings
(the condition language of section 4.3 offers `length()`). -/
def vLength : Value → Nat
  | .str s => s.length
  | .obj fs => fs.length

/-- Modelled from the spec, section 4.3: the restricted condition-expression
language (attribute access `variables.<stepId>`, numeric/string comparisons,
`length()`, boolean connectives), represented as the parsed AST that the design
notes in section 9 call for. -/
inductive CExpr where
  | inputRef
  | varRef (stepId : String)
  | litStr (s : String)
  | litNum (n : Nat)
  | length (e : CExpr)
  | gt (a b : CExpr)
  | lt (a b : CExpr)
  | eqNum (a b : CExpr)
  | eqStr (a b : CExpr)
  | and (a b : CExpr)
  | or (a b : CExpr)
  | not (a : CExpr)

/-- Intermediate values of condition evaluation. -/
inductive CVal where
  | val (v : Value)
  | num (n : Nat)
  | bool (b : Bool)

/-- Modelled from the spec, section 4.3: side-effect-free, terminating
evaluation of a condition expression against the current VariableStore and the
step's resolved input; fails with `MissingVariable` on an uncommitted step id
and with `InvalidExpression` on ill-typed use. -/
def evalC (vs : VariableStore) (input : Value) : CExpr → Except EngineError CVal
  | .inputRef => .ok (.val input)
  | .varRef id =>
    match VariableStore.get vs id with
    | .ok v => .ok (.val v)
    | .error e => .error e
  | .litStr s => .ok (.val (.str s))
  | .litNum n => .ok (.num n)
  | .length e =>
    match evalC vs input e with
    | .ok (.val v) => .ok (.num (vLength v))
    | .ok _ => .error .InvalidExpression
    | .error er => .error er
  | .gt a b =>
    match evalC vs input a, evalC vs input b with
    | .ok (.num x), .ok (.num y) => .ok (.bool (decide (y < x)))
    | .error er, _ => .error er
    | _, .error er => .error er
    | _, _ => .error .InvalidExpression
  | .lt a b =>
    match evalC vs input a, evalC vs input b with
    | .ok (.num x), .ok (.num y) => .ok (.bool (decide (x < y)))
    | .error er, _ => .error er
    | _, .error er => .error er
    | _, _ => .error .InvalidExpression
  | .eqNum a b =>
    match evalC vs input a, evalC vs input b with
    | .ok (.num x), .ok (.num y) => .ok (.bool (x == y))
    | .error er, _ => .error er
    | _, .error er => .error er
    | _, _ => .error .InvalidExpression
  | .eqStr a b =>
    match evalC vs input a, evalC vs input b with
    | .ok (.val (.str x)), .ok (.val (.str y)) => .ok (.bool (x == y))
    | .error er, _ => .error er
    | _, .error er => .error er
    | _, _ => .error .InvalidExpression
  | .and a b =>
    match evalC vs input a, evalC vs input b with
    | .ok (.bool x), .ok (.bool y) => .ok (.bool (x && y))
    | .error er, _ => .error er
    | _, .error er => .error er
    | _, _ => .error .InvalidExpression
  | .or a b =>
    match evalC vs input a, evalC vs input b with
    | .ok (.bool x), .ok (.bool y) => .ok (.bool (x || y))
    | .error er, _ => .error er
    | _, .error er => .error er
    | _, _ => .error .InvalidExpression
  | .not a =>
    match evalC vs input a with
    | .ok (.bool x) => .ok (.bool (!x))
    | .ok _ => .error .InvalidExpression
    | .error er => .error er

/-- Modelled from the spec, section 4.3: a condition must evaluate to a
boolean. -/
def evalCond (vs : VariableStore) (input : Value) (c : CExpr) :
    Except EngineError Bool :=
  match evalC vs input c with
  | .ok (.bool b) => .ok b
  | .ok _ => .error .InvalidExpression
  | .error e => .error e

/-- Modelled from the spec, section 3: Step as a closed tagged variant, one
case per kind (`agent`, `condition`, `parallel`), as the design notes in
section 9 call for.  A parallel branch is a pair of branch id and agent id. -/
inductive Step where
  | agent (id : String) (agentId : String) (timeout : Option Nat) (retries : Nat)
  | cond (id : String) (c : CExpr) (trueSteps falseSteps : List Step)
  | par (id : String) (branches : List (String × String))

/-- Modelled from the spec, section 3: a Workflow, immutable once registered. -/
structure Workflow where
  id : String
  name : String
  description : String
  steps : List Step

/-- Modelled from the spec, section 2: the Registry of registered Agents and
Workflows. -/
structure Registry where
  agents : List Agent
  workflows : List Workflow

/-- Look an agent up by id. -/
def findAgent (ags : List Agent) (aid : String) : Option Agent :=
  ags.find? (fun a => a.id == aid)

/-- Look a workflow up by id. -/
def Registry.findWorkflow (reg : Registry) (wid : String) : Option Workflow :=
  reg.workflows.find? (fun w => w.id == wid)

mutual

/-- All agent ids referenced by one step, including nested branches. -/
def stepAgentIds : Step → List String
  | .agent _ aid _ _ => [aid]
  | .cond _ _ ts fs => stepsAgentIds ts ++ stepsAgentIds fs
  | .par _ bs => bs.map Prod.snd

/-- All agent ids referenced by a step sequence, including nested branches. -/
def stepsAgentIds : List Step → List String
  | [] => []
  | s :: rest => stepAgentIds s ++ stepsAgentIds rest

end

mutual

/-- All step ids declared by one step, including nested branches and the ids
of parallel branches. -/
def stepIds : Step → List String
  | .agent id _ _ _ => [id]
  | .cond id _ ts fs => id :: (stepsIds ts ++ stepsIds fs)
  | .par id bs => id :: bs.map Prod.fst

/-- All step ids declared by a step sequence. -/
def stepsIds : List Step → List String
  | [] => []
  | s :: rest => stepIds s ++ stepsIds rest

end

/-- Modelled from the spec, section 4.1: agent-configuration validation
(temperature inside the unit interval, positive maxTokens and timeout,
non-empty model name). -/
def validAgentConfig (a : Agent) : Bool :=
  (a.modelSpec.primaryModel != "") &&
  decide (0 ≤ a.modelSpec.temperature) &&
  decide (a.modelSpec.temperature ≤ 1) &&
  decide (0 < a.modelSpec.maxTokens) &&
  decide (0 < a.modelSpec.timeout)

/-- Modelled from the spec, section 4.1: `registerAgent` fails with
`DuplicateId` on an existing agent id and with `InvalidConfig` on an invalid
configuration; otherwise it stores the agent. -/
def registerAgent (reg : Registry) (a : Agent) : Except EngineError Registry :=
  if (findAgent reg.agents a.id).isSome then .error (.DuplicateId a.id)
  else if validAgentConfig a then
    .ok { reg with agents := reg.agents ++ [a] }
  else .error (.InvalidConfig a.id)

/-- Modelled from the spec, section 4.1: `registerWorkflow` fails with
`DuplicateId` on an existing workflow id, recursively walks all steps
(including nested branches) and fails with `UnknownAgent` if any referenced
agent is absent, and fails with `InvalidConfig` on a step-id collision;
otherwise it stores the workflow. -/
def registerWorkflow (reg : Registry) (w : Workflow) :
    Except EngineError Registry :=
  if (reg.findWorkflow w.id).isSome then .error (.DuplicateId w.id)
  else
    match (stepsAgentIds w.steps).find? (fun aid => (findAgent reg.agents aid).isNone) with
    | some aid => .error (.UnknownAgent aid)
    | none =>
      if (stepsIds w.steps).Nodup then
        .ok { reg with workflows := reg.workflows ++ [w] }
      else .error (.InvalidConfig w.id)

/-- One record of a leaf-step attempt's outcome and timing.  Field names
follow the ExecutionResult interface documented in README.md (lines 702-726):
`duration`, not `durationMs`. -/
structure HistoryEntry where
  stepId : String
  duration : Nat
  success : Bool
  error : Option String
  modelUsed : Option String
  tokensUsed : Option Nat
deriving DecidableEq, Inhabited

/-- Execution metadata per the README's ExecutionResult interface, which
carries an `environment` field naming the runtime environment. -/
structure ExecMetadata where
  workflowId : String
  startTime : Nat
  endTime : Nat
  environment : String
deriving DecidableEq

/-- The result of one `execute` call, per the README's ExecutionResult
interface: `totalDuration`, not `totalDurationMs`. -/
structure ExecutionResult where
  «variables» : VariableStore
  history : List HistoryEntry
  totalDuration : Nat
  success : Bool
  metadata : ExecMetadata

/-- Modelled from the spec, section 3: the per-invocation mutable execution
context threaded through the engine: committed variables, history so far, the
next global attempt index (feeding the Invoker oracle) and the next history
index (feeding the duration oracle). -/
structure ExecState where
  vars : VariableStore
  history : List HistoryEntry
  aidx : Nat
  hidx : Nat

/-- Modelled from the spec, section 4.5: the outcome of executing one step or
one step sequence.  `ok` carries the step's committed output; `failed` carries
the error string of an ordinary runtime failure (the workflow stops but
`execute` still returns a result); `fault` is a programming-error-class
invariant violation that propagates past the API boundary (section 7). -/
inductive StepRes where
  | ok (out : Value) (st : ExecState)
  | failed (err : String) (st : ExecState)
  | fault (e : EngineError)

/-- Build one history entry (tokens are not modelled). -/
def mkEntry (id : String) (d : Nat) (ok : Bool) (err : Option String)
    (mu : Option String) : HistoryEntry :=
  { stepId := id, duration := d, success := ok, error := err,
    modelUsed := mu, tokensUsed := none }

/-- Modelled from the spec, section 4.5 (AgentStep): resolve the Agent from
the Registry, run the RetryPolicy/FallbackResolver around the ModelInvoker,
commit the output and append a success entry, or append a failure entry
carrying `AllModelsExhausted` and transition to Failed. -/
def execAgent (ags : List Agent) (inv : Invoker) (dur : Nat → Nat)
    (id aid : String) (retries : Nat) (input : Value) (st : ExecState) :
    StepRes :=
  match findAgent ags aid with
  | none => .fault (.UnknownAgent aid)
  | some ag =>
    let r := resolveFallback inv ag retries input st.aidx
    match r.1 with
    | .ok v =>
      match VariableStore.set st.vars id v with
      | .error e => .fault e
      | .ok vars' =>
        .ok v { vars := vars',
                history := st.history ++ [mkEntry id (dur st.hidx) true none r.2.1.getLast?],
                aidx := r.2.2, hidx := st.hidx + 1 }
    | .error es =>
      let msg := errString (.AllModelsExhausted es)
      .failed msg
        { st with
          history := st.history ++ [mkEntry id (dur st.hidx) false (some msg) r.2.1.getLast?],
          aidx := r.2.2, hidx := st.hidx + 1 }

/-- Modelled from the spec, section 4.5 (ParallelStep): run every branch's
RetryPolicy pipeline on the same input (branches have no retries of their own),
appending one history entry per branch; all branches run to completion.
Returns the per-branch outcomes in declared order. -/
def runBranches (ags : List Agent) (inv : Invoker) (dur : Nat → Nat)
    (input : Value) :
    ExecState → List (String × String) →
    Except EngineError (List (String × Except String Value) × ExecState)
  | st, [] => .ok ([], st)
  | st, (bid, aid) :: rest =>
    match findAgent ags aid with
    | none => .error (.UnknownAgent aid)
    | some ag =>
      let r := resolveFallback inv ag 0 input st.aidx
      match r.1 with
      | .ok v =>
        let st' : ExecState :=
          { st with
            history := st.history ++ [mkEntry bid (dur st.hidx) true none r.2.1.getLast?],
            aidx := r.2.2, hidx := st.hidx + 1 }
        match runBranches ags inv dur input st' rest with
        | .error e => .error e
        | .ok (res, st'') => .ok ((bid, .ok v) :: res, st'')
      | .error es =>
        let msg := errString (.AllModelsExhausted es)
        let st' : ExecState :=
          { st with
            history := st.history ++ [mkEntry bid (dur st.hidx) false (some msg) r.2.1.getLast?],
            aidx := r.2.2, hidx := st.hidx + 1 }
        match runBranches ags inv dur input st' rest with
        | .error e => .error e
        | .ok (res, st'') => .ok ((bid, .error msg) :: res, st'')

/-- Extract a successful branch output (total helper; only used where every
branch is known to have succeeded). -/
def okValue : Except String Value → Value
  | .ok v => v
  | .error _ => .str ""

/-- The first observed branch error, in declared branch order. -/
def firstBranchError (rs : List (String × Except String Value)) : Option String :=
  rs.findSome? (fun p => match p.2 with | .error e => some e | .ok _ => none)

/-- Modelled from the spec, section 4.5 (ParallelStep): the step succeeds only
if all branches succeed, committing the mapping from branch id to branch
output; on any branch failure the step fails carrying the first observed
branch error, yet every branch has already run to completion. -/
def execPar (ags : List Agent) (inv : Invoker) (dur : Nat → Nat) (id : String)
    (branches : List (String × String)) (input : Value) (st : ExecState) :
    StepRes :=
  match runBranches ags inv dur input st branches with
  | .error e => .fault e
  | .ok (res, st') =>
    match firstBranchError res with
    | some e => .failed e st'
    | none =>
      let out : Value := .obj (res.map (fun p => (p.1, okValue p.2)))
      match VariableStore.set st'.vars id out with
      | .error e => .fault e
      | .ok vars' => .ok out { st' with vars := vars' }

/-- Modelled from the spec, section 4.5 (ConditionStep): after the selected
branch has run, commit the last nested step's output under the condition
step's own id, so subsequent sibling steps consume it uniformly. -/
def condCommit (id : String) : StepRes → StepRes
  | .ok out st =>
    match VariableStore.set st.vars id out with
    | .error e => .fault e
    | .ok vars' => .ok out { st with vars := vars' }
  | r => r

mutual

/-- Modelled from the spec, sections 4.5 and 4.6: execute one step given its
resolved input and the current execution context. -/
def execStep (ags : List Agent) (inv : Invoker) (dur : Nat → Nat)
    (input : Value) (st : ExecState) : Step → StepRes
  | .agent id aid _tmo r => execAgent ags inv dur id aid r input st
  | .cond id c ts fs =>
    match evalCond st.vars input c with
    | .error e =>
      let msg := errString e
      .failed msg
        { st with
          history := st.history ++ [mkEntry id (dur st.hidx) false (some msg) none],
          hidx := st.hidx + 1 }
    | .ok true => condCommit id (execSteps ags inv dur input st ts)
    | .ok false => condCommit id (execSteps ags inv dur input st fs)
  | .par id bs => execPar ags inv dur id bs input st

/-- Modelled from the spec, sections 4.2 and 4.6: execute a step sequence in
order; the first step receives the sequence's input, every later step receives
the immediately preceding step's committed output, and the first Failed step
stops the sequence. -/
def execSteps (ags : List Agent) (inv : Invoker) (dur : Nat → Nat)
    (input : Value) (st : ExecState) : List Step → StepRes
  | [] => .ok input st
  | s :: rest =>
    match execStep ags inv dur input st s with
    | .ok out st' => execSteps ags inv dur out st' rest
    | r => r

end

/-- The empty execution context a fresh `execute` call starts from. -/
def initState : ExecState := { vars := [], history := [], aidx := 0, hidx := 0 }

/-- Assemble the ExecutionResult of one `execute` call from the final
execution context: `totalDuration` is the elapsed time of the whole call and
the metadata carries the workflow id, start/end times and the runtime
environment (README ExecutionResult interface). -/
def mkResult (wid : String) (startTime : Nat) (env : String) (ok : Bool)
    (st : ExecState) : ExecutionResult :=
  { «variables» := st.vars, history := st.history,
    totalDuration := (st.history.map HistoryEntry.duration).sum, success := ok,
    metadata := { workflowId := wid, startTime := startTime,
                  endTime := startTime + (st.history.map HistoryEntry.duration).sum,
                  environment := env } }

/-- Modelled from the spec, section 4.6: `execute(workflowId, input)` resolves
the workflow (failing with `NotFound` if absent), runs the top-level sequence
from a fresh context, and returns an ExecutionResult — with `success := false`
but full partial variables/history when a step failed; only
programming-error-class faults escape as errors. -/
def execute (reg : Registry) (inv : Invoker) (dur : Nat → Nat)
    (startTime : Nat) (env : String) (wid : String) (input : Value) :
    Except EngineError ExecutionResult :=
  match reg.findWorkflow wid with
  | none => .error (.NotFound wid)
  | some w =>
    match execSteps reg.agents inv dur input initState w.steps with
    | .ok _ st => .ok (mkResult wid startTime env true st)
    | .failed _ st => .ok (mkResult wid startTime env false st)
    | .fault e => .error e

/-- Modelled from the spec, section 4.7: the Orchestrator facade composing the
Registry and the WorkflowEngine. -/
structure Orchestrator where
  registry : Registry

/-- Modelled from the spec, sections 4.6 and 4.7: the facade's `execute`,
returning the result together with the facade state after the call (execution
reads the Registry but never mutates it). -/
def Orchestrator.run (o : Orchestrator) (inv : Invoker) (dur : Nat → Nat)
    (startTime : Nat) (env : String) (wid : String) (input : Value) :
    Except EngineError ExecutionResult × Orchestrator :=
  (execute o.registry inv dur startTime env wid input, o)

/-- The per-step metric line printed by the demo, advanced_orchestrator.ts
line 137: it reads `step.duration` directly. -/
def demoStepLine (i : Nat) (e : HistoryEntry) : String :=
  toString (i + 1) ++ ". " ++ e.stepId ++ ": " ++ toString e.duration ++ "ms"

/-- The demo's metric listing, advanced_orchestrator.ts lines 136-138:
`result.history.forEach((step, i) => ...)`. -/
def demoMetricLines (r : ExecutionResult) : List String :=
  r.history.enum.map (fun p => demoStepLine p.1 p.2)

/-- The step's own id, the key under which its output is committed. -/
def topId : Step → String
  | .agent id _ _ _ => id
  | .cond id _ _ _ => id
  | .par id _ => id

/-- A history entry with its timing removed, for comparing two runs that may
observe different clocks. -/
def stripDur (e : HistoryEntry) : HistoryEntry := { e with duration := 0 }

/-- Two execution contexts that agree on everything but entry timings. -/
def stEquiv (a b : ExecState) : Prop :=
  a.vars = b.vars ∧ a.aidx = b.aidx ∧ a.hidx = b.hidx ∧
  a.history.map stripDur = b.history.map stripDur

/-- Two step outcomes that agree on everything but entry timings. -/
def resEquiv : StepRes → StepRes → Prop
  | .ok o a, .ok o' b => o = o' ∧ stEquiv a b
  | .failed e a, .failed e' b => e = e' ∧ stEquiv a b
  | .fault e, .fault e' => e = e'
  | _, _ => False

/-- Two branch-run outcomes that agree on everything but entry timings. -/
def brEquiv :
    Except EngineError (List (String × Except String Value) × ExecState) →
    Except EngineError (List (String × Except String Value) × ExecState) → Prop
  | .error e, .error e' => e = e'
  | .ok (res, a), .ok (res', b) => res = res' ∧ stEquiv a b
  | _, _ => False

/-- Render a value for the deterministic invoker stubs used as witnesses. -/
def vStr : Value → String
  | .str s => s
  | .obj _ => "(obj)"

/-- Witness fixture: an agent served by model m1 with no fallbacks. -/
def agA : Agent :=
  { id := "agA", name := "A",
    modelSpec := { provider := "p", primaryModel := "m1", fallbackModels := [],
                   temperature := 1/2, maxTokens := 10, timeout := 10 },
    systemPrompt := "sysA" }

/-- Witness fixture: an agent served by model m2 with no fallbacks. -/
def agB : Agent :=
  { id := "agB", name := "B",
    modelSpec := { provider := "p", primaryModel := "m2", fallbackModels := [],
                   temperature := 1/2, maxTokens := 10, timeout := 10 },
    systemPrompt := "sysB" }

/-- Witness fixture: a deterministic invoker echoing the model and input, so
inter-step chaining is observable. -/
def invOk : Invoker := fun _ m _ v => .ok (.str (m ++ "(" ++ vStr v ++ ")"))

/-- Witness fixture: a deterministic invoker where only model m1 answers. -/
def invAB : Invoker := fun _ m _ v =>
  if m == "m1" then .ok (.str ("m1(" ++ vStr v ++ ")")) else .error .Timeout

/-- Witness fixture: a three-step sequential workflow whose second step uses
the failing agent. -/
def wfFail : Workflow :=
  { id := "wfFail", name := "w", description := "d",
    steps := [.agent "s1" "agA" none 0, .agent "s2" "agB" none 0,
              .agent "s3" "agA" none 0] }

/-- Witness fixture: a two-step sequential workflow. -/
def wfOk : Workflow :=
  { id := "wfOk", name := "w", description := "d",
    steps := [.agent "s1" "agA" none 0, .agent "s2" "agB" none 0] }

/-- Witness fixture: the registry with the two stub agents and no workflow. -/
def regAB : Registry := { agents := [agA, agB], workflows := [] }

/-- Witness fixture: registry after registering the failing workflow. -/
def regFail : Registry := { agents := [agA, agB], workflows := [wfFail] }

/-- Witness fixture: registry after registering the two-step workflow. -/
def regOk : Registry := { agents := [agA, agB], workflows := [wfOk] }

/-- Witness fixture: a parallel step over both stub agents. -/
def parStep : Step := .par "p1" [("b1", "agA"), ("b2", "agB")]

/-- Witness fixture: a condition step comparing the length of step s1's
output against 100, as in the README condition example. -/
def condStep : Step :=
  .cond "c1" (.gt (.length (.varRef "s1")) (.litNum 100))
    [.agent "t1" "agA" none 0] [.agent "f1" "agA" none 0]

/-- Witness fixture: an execution context with s1 committed as a 5-character
string. -/
def stS1 : ExecState :=
  { vars := [("s1", .str "hello")], history := [], aidx := 0, hidx := 0 }

/-- Placeholder result used only to give `Except.toOption.getD` a default in
witness statements. -/
def dummyResult : ExecutionResult :=
  { «variables» := [], history := [], totalDuration := 0, success := false,
    metadata := { workflowId := "", startTime := 0, endTime := 0,
                  environment := "" } }

def failInv : Invoker := fun _ _ _ _ => .error .Timeout

def agFix : Agent :=
  { id := "a1", name := "A1",
    modelSpec := { provider := "openrouter", primaryModel := "p",
                   fallbackModels := ["f"], temperature := 1/2,
                   maxTokens := 100, timeout := 1000 },
    systemPrompt := "sys" }

/-- Outcome predicate for the safety lemma: the result is not a fault, and the
committed keys stay inside the base keys plus the executed step's declared
ids. -/
def notFault (base ids : List String) : StepRes → Prop
  | .ok _ st => VariableStore.keys st.vars ⊆ base ++ ids
  | .failed _ st => VariableStore.keys st.vars ⊆ base ++ ids
  | .fault _ => False

/-- Outcome predicate for write-once preservation: committed keys stay
duplicate-free. -/
def resNodup : StepRes → Prop
  | .ok _ st => (VariableStore.keys st.vars).Nodup
  | .failed _ st => (VariableStore.keys st.vars).Nodup
  | .fault _ => True

/-- The final execution context of a non-fault outcome. -/
def resStateOf : StepRes → Option ExecState
  | .ok _ st => some st
  | .failed _ st => some st
  | .fault _ => none

/-- The execution context after the first step of the two-step witness
workflow. -/
def st1W : ExecState :=
  { vars := [("s1", Value.str "m1(t)")],
    history := [mkEntry "s1" 1 true none (some "m1")], aidx := 1, hidx := 1 }

/-- The execution context after the witness parallel step: two entries, one
per branch, the second failed. -/
def stParW : ExecState :=
  { vars := [],
    history := [mkEntry "b1" 1 true none (some "m1"),
                mkEntry "b2" 1 false (some "AllModelsExhausted") (some "m2")],
    aidx := 2, hidx := 2 }

/-- The result of the witness failing-workflow run, extracted from the
engine. -/
def resFailW : ExecutionResult :=
  (execute regFail invAB (fun _ => 1) 0 "node" "wfFail" (.str "t")).toOption.getD
    dummyResult

/-- The execution context after running the witness condition step's false
branch. -/
def stCondW : ExecState :=
  { vars := [("s1", Value.str "hello"), ("f1", Value.str "m1(prev)")],
    history := [mkEntry "f1" 1 true none (some "m1")], aidx := 1, hidx := 1 }

/-- The variable store after the witness condition step commits its output. -/
def varsCondW : VariableStore :=
  [("s1", Value.str "hello"), ("f1", Value.str "m1(prev)"),
   ("c1", Value.str "m1(prev)")]

/-- Witness fixture: a workflow referencing an unregistered agent. -/
def wfBad : Workflow :=
  { id := "wfBad", name := "w", description := "d",
    steps := [.agent "sx" "ghost" none 0] }

/-- Witness fixture: the facade over the two-agent registry. -/
def orchW : Orchestrator := { registry := regAB }

/-- The result of the witness two-step successful run, extracted from the
engine. -/
def resOkW : ExecutionResult :=
  (execute regOk invOk (fun i => 10 * i + 3) 7 "node" "wfOk"
    (.str "t")).toOption.getD dummyResult

theorem runModels_nil (inv : Invoker) (sys : String) (input : Value)
    (aidx : Nat) (errs : List InvokeError) :
    runModels inv sys input aidx [] errs = (.error errs.reverse, [], aidx) := rfl

theorem runModels_cons_ok {inv : Invoker} {sys : String} {input : Value}
    {aidx : Nat} {m : String} {v : Value}
    (rest : List String) (errs : List InvokeError)
    (hm : inv aidx m sys input = .ok v) :
    runModels inv sys input aidx (m :: rest) errs = (.ok v, [m], aidx + 1) := by
  simp [runModels, hm]

theorem runModels_cons_error {inv : Invoker} {sys : String} {input : Value}
    {aidx : Nat} {m : String} {e : InvokeError}
    (rest : List String) (errs : List InvokeError)
    (hm : inv aidx m sys input = .error e) :
    runModels inv sys input aidx (m :: rest) errs =
      ((runModels inv sys input (aidx + 1) rest (e :: errs)).1,
       m :: (runModels inv sys input (aidx + 1) rest (e :: errs)).2.1,
       (runModels inv sys input (aidx + 1) rest (e :: errs)).2.2) := by
  simp [runModels, hm]

theorem runModels_trace_attempted (inv : Invoker) (sys : String) (input : Value) :
    ∀ (ms : List String) (aidx : Nat) (errs : List InvokeError),
    (runModels inv sys input aidx ms errs).2.1 <+: ms := by
  intro ms
  induction ms with
  | nil => intro aidx errs; simp [runModels_nil]
  | cons m rest ih =>
    intro aidx errs
    cases hm : inv aidx m sys input with
    | ok v => rw [runModels_cons_ok rest errs hm]; simp [List.cons_prefix_cons]
    | error e =>
      rw [runModels_cons_error rest errs hm]
      exact List.cons_prefix_cons.mpr ⟨rfl, ih (aidx + 1) (e :: errs)⟩

theorem runModels_exhausted (inv : Invoker) (sys : String) (input : Value) :
    ∀ (ms : List String) (aidx : Nat) (errs es : List InvokeError),
    (runModels inv sys input aidx ms errs).1 = .error es →
    (runModels inv sys input aidx ms errs).2.1 = ms ∧
    (runModels inv sys input aidx ms errs).2.2 = aidx + ms.length ∧
    ∃ es0, es = errs.reverse ++ es0 ∧ es0.length = ms.length ∧
      ∀ k, k < ms.length →
        inv (aidx + k) (ms.getD k "") sys input = .error (es0.getD k .ProviderError) := by
  intro ms
  induction ms with
  | nil =>
    intro aidx errs es h
    rw [runModels_nil] at h ⊢
    refine ⟨rfl, by simp, [], ?_, rfl, by intro k hk; simp at hk⟩
    have : errs.reverse = es := by simpa using h
    simp [this]
  | cons m rest ih =>
    intro aidx errs es h
    cases hm : inv aidx m sys input with
    | ok v => rw [runModels_cons_ok rest errs hm] at h; simp at h
    | error e =>
      rw [runModels_cons_error rest errs hm] at h ⊢
      obtain ⟨htr, hidx, es0, hes, hlen, hpt⟩ := ih (aidx + 1) (e :: errs) es h
      refine ⟨by simp [htr], by simp [hidx]; omega, e :: es0, ?_, by simp [hlen], ?_⟩
      · simpa [List.reverse_cons] using hes
      · intro k hk
        cases k with
        | zero => simpa using hm
        | succ k' =>
          have := hpt k' (by simpa using hk)
          simpa [Nat.add_comm, Nat.add_assoc, Nat.add_left_comm] using this

theorem runModels_success (inv : Invoker) (sys : String) (input : Value) :
    ∀ (ms : List String) (aidx : Nat) (errs : List InvokeError) (v : Value),
    (runModels inv sys input aidx ms errs).1 = .ok v →
    ∃ k, k < ms.length ∧
      (runModels inv sys input aidx ms errs).2.1 = ms.take (k + 1) ∧
      (runModels inv sys input aidx ms errs).2.2 = aidx + k + 1 ∧
      inv (aidx + k) (ms.getD k "") sys input = .ok v ∧
      ∀ j, j < k → ∃ e, inv (aidx + j) (ms.getD j "") sys input = .error e := by
  intro ms
  induction ms with
  | nil => intro aidx errs v h; rw [runModels_nil] at h; simp at h
  | cons m rest ih =>
    intro aidx errs v h
    cases hm : inv aidx m sys input with
    | ok w =>
      rw [runModels_cons_ok rest errs hm] at h ⊢
      obtain rfl : w = v := by simpa using h
      exact ⟨0, by simp, rfl, rfl, by simpa using hm, by omega⟩
    | error e =>
      rw [runModels_cons_error rest errs hm] at h ⊢
      obtain ⟨k, hk, htr, hidx, hok, hprev⟩ := ih (aidx + 1) (e :: errs) v h
      refine ⟨k + 1, by simpa using hk, ?_, ?_, ?_, ?_⟩
      · simp only [List.take_succ_cons]; simp [htr]
      · simp only [hidx]; omega
      · simpa [Nat.add_comm, Nat.add_assoc, Nat.add_left_comm] using hok
      · intro j hj
        cases j with
        | zero => exact ⟨e, by simpa using hm⟩
        | succ j' =>
          obtain ⟨e', he'⟩ := hprev j' (by omega)
          exact ⟨e', by simpa [Nat.add_comm, Nat.add_assoc, Nat.add_left_comm] using he'⟩

theorem attemptModels_length (ms : ModelSpec) (r : Nat) :
    (attemptModels ms r).length = (r + 1) + ms.fallbackModels.length := by
  simp [attemptModels]

/-- C1: for an AgentStep with `retries = r` executed against an Agent whose
modelSpec has `n` fallback models, the retry/fallback resolver attempts the
primary model exactly `r+1` times, then each fallback model once in declared
order, stopping at the first successful attempt; if every attempt fails the
step fails with `AllModelsExhausted` carrying the per-attempt errors, and the
total number of attempts never exceeds `(r+1) + n`. -/
theorem retryFallback_attempt_sequence (inv : Invoker) (ag : Agent) (r : Nat)
    (input : Value) (aidx : Nat) :
    attemptModels ag.modelSpec r =
      List.replicate (r + 1) ag.modelSpec.primaryModel ++ ag.modelSpec.fallbackModels ∧
    (attemptModels ag.modelSpec r).length =
      (r + 1) + ag.modelSpec.fallbackModels.length ∧
    (resolveFallback inv ag r input aidx).2.1 <+: attemptModels ag.modelSpec r ∧
    (resolveFallback inv ag r input aidx).2.1.length ≤
      (r + 1) + ag.modelSpec.fallbackModels.length ∧
    (∀ es, (resolveFallback inv ag r input aidx).1 = .error es →
      (resolveFallback inv ag r input aidx).2.1 = attemptModels ag.modelSpec r ∧
      es.length = (r + 1) + ag.modelSpec.fallbackModels.length ∧
      ∀ k, k < (r + 1) + ag.modelSpec.fallbackModels.length →
        inv (aidx + k) ((attemptModels ag.modelSpec r).getD k "") ag.systemPrompt input =
          .error (es.getD k .ProviderError)) ∧
    (∀ v, (resolveFallback inv ag r input aidx).1 = .ok v →
      ∃ k, k < (r + 1) + ag.modelSpec.fallbackModels.length ∧
        (resolveFallback inv ag r input aidx).2.1 =
          (attemptModels ag.modelSpec r).take (k + 1) ∧
        inv (aidx + k) ((attemptModels ag.modelSpec r).getD k "") ag.systemPrompt input = .ok v ∧
        ∀ j, j < k →
          ∃ e, inv (aidx + j) ((attemptModels ag.modelSpec r).getD j "") ag.systemPrompt input = .error e) ∧
    (∀ (ags : List Agent) (dur : Nat → Nat) (id aid : String) (tmo : Option Nat)
        (st : ExecState) (es : List InvokeError),
      findAgent ags aid = some ag →
      (resolveFallback inv ag r input st.aidx).1 = .error es →
      execStep ags inv dur input st (.agent id aid tmo r) =
        .failed (errString (.AllModelsExhausted es))
          { st with
            history := st.history ++
              [mkEntry id (dur st.hidx) false (some (errString (.AllModelsExhausted es)))
                (resolveFallback inv ag r input st.aidx).2.1.getLast?],
            aidx := (resolveFallback inv ag r input st.aidx).2.2,
            hidx := st.hidx + 1 }) := by
  refine ⟨rfl, attemptModels_length ag.modelSpec r, ?_, ?_, ?_, ?_, ?_⟩
  · exact runModels_trace_attempted inv ag.systemPrompt input (attemptModels ag.modelSpec r) aidx []
  · have := (runModels_trace_attempted inv ag.systemPrompt input
      (attemptModels ag.modelSpec r) aidx []).length_le
    simpa [attemptModels_length] using this
  · intro es h
    obtain ⟨htr, _, es0, hes, hlen, hpt⟩ :=
      runModels_exhausted inv ag.systemPrompt input (attemptModels ag.modelSpec r) aidx [] es h
    obtain rfl : es = es0 := by simpa using hes
    refine ⟨htr, by rw [hlen, attemptModels_length], ?_⟩
    intro k hk
    exact hpt k (by rwa [attemptModels_length])
  · intro v h
    obtain ⟨k, hk, htr, _, hok, hprev⟩ :=
      runModels_success inv ag.systemPrompt input (attemptModels ag.modelSpec r) aidx [] v h
    exact ⟨k, by rwa [attemptModels_length] at hk, htr, hok, hprev⟩
  · intro ags dur id aid tmo st es hfind hres
    simp [execStep, execAgent, hfind, hres]

/-- Witness for C1: with one fallback model and one retry, an always-failing
invoker produces exactly the attempt trace primary, primary, fallback and the
three per-attempt errors. -/
theorem retryFallback_attempt_sequence_witness :
    (resolveFallback failInv agFix 1 (.str "x") 0).2.1 = ["p", "p", "f"] ∧
    (resolveFallback failInv agFix 1 (.str "x") 0).1 =
      .error [.Timeout, .Timeout, .Timeout] ∧
    ([(.Timeout : InvokeError), .Timeout, .Timeout]).length = (1 + 1) + 1 := by
  have h := retryFallback_attempt_sequence failInv agFix 1 (.str "x") 0
  have h5 := h.2.2.2.2.1 [.Timeout, .Timeout, .Timeout] (by rfl)
  exact ⟨by rw [h5.1]; rfl, rfl, h5.2.1⟩

theorem keys_append_single (vs : VariableStore) (id : String) (v : Value) :
    VariableStore.keys (vs ++ [(id, v)]) = VariableStore.keys vs ++ [id] := by
  simp [VariableStore.keys]

theorem set_of_mem {vs : VariableStore} {id : String} (v : Value)
    (h : id ∈ VariableStore.keys vs) :
    VariableStore.set vs id v = .error (.DuplicateWrite id) := by
  simp [VariableStore.set, List.elem_iff, h]

theorem set_of_not_mem {vs : VariableStore} {id : String} (v : Value)
    (h : id ∉ VariableStore.keys vs) :
    VariableStore.set vs id v = .ok (vs ++ [(id, v)]) := by
  simp [VariableStore.set, List.elem_iff, h]

theorem set_ok_inv {vs vs' : VariableStore} {id : String} {v : Value}
    (h : VariableStore.set vs id v = .ok vs') :
    id ∉ VariableStore.keys vs ∧ vs' = vs ++ [(id, v)] := by
  by_cases hm : id ∈ VariableStore.keys vs
  · rw [set_of_mem v hm] at h; cases h
  · rw [set_of_not_mem v hm] at h
    exact ⟨hm, by injection h with h'; exact h'.symm⟩

theorem find?_keys_none {vs : VariableStore} {id : String}
    (h : id ∉ VariableStore.keys vs) :
    vs.find? (fun p => p.1 == id) = none := by
  refine List.find?_eq_none.mpr ?_
  intro p hp
  have : p.1 ≠ id := by
    intro he
    exact h (by simpa [VariableStore.keys, he] using List.mem_map_of_mem Prod.fst hp)
  simp [this]

theorem get_set_self {vs vs' : VariableStore} {id : String} {v : Value}
    (h : VariableStore.set vs id v = .ok vs') :
    VariableStore.get vs' id = .ok v := by
  obtain ⟨hm, rfl⟩ := set_ok_inv h
  simp [VariableStore.get, List.find?_append, find?_keys_none hm]

theorem keys_set_ok {vs vs' : VariableStore} {id : String} {v : Value}
    (h : VariableStore.set vs id v = .ok vs') :
    VariableStore.keys vs' = VariableStore.keys vs ++ [id] := by
  obtain ⟨_, rfl⟩ := set_ok_inv h
  exact keys_append_single vs id v

theorem nodup_set_ok {vs vs' : VariableStore} {id : String} {v : Value}
    (h : VariableStore.set vs id v = .ok vs')
    (hnd : (VariableStore.keys vs).Nodup) :
    (VariableStore.keys vs').Nodup := by
  obtain ⟨hm, rfl⟩ := set_ok_inv h
  rw [keys_append_single]
  simpa [List.nodup_append] using ⟨hnd, hm⟩

theorem execSteps_nil_eq (ags : List Agent) (inv : Invoker) (dur : Nat → Nat)
    (input : Value) (st : ExecState) :
    execSteps ags inv dur input st [] = .ok input st := rfl

theorem execSteps_cons_ok {ags : List Agent} {inv : Invoker} {dur : Nat → Nat}
    {input out : Value} {st st' : ExecState} {s : Step} (rest : List Step)
    (h : execStep ags inv dur input st s = .ok out st') :
    execSteps ags inv dur input st (s :: rest) =
      execSteps ags inv dur out st' rest := by
  simp [execSteps, h]

theorem execSteps_cons_failed {ags : List Agent} {inv : Invoker} {dur : Nat → Nat}
    {input : Value} {st st' : ExecState} {s : Step} {e : String} (rest : List Step)
    (h : execStep ags inv dur input st s = .failed e st') :
    execSteps ags inv dur input st (s :: rest) = .failed e st' := by
  simp [execSteps, h]

theorem execSteps_cons_fault {ags : List Agent} {inv : Invoker} {dur : Nat → Nat}
    {input : Value} {st : ExecState} {s : Step} {e : EngineError} (rest : List Step)
    (h : execStep ags inv dur input st s = .fault e) :
    execSteps ags inv dur input st (s :: rest) = .fault e := by
  simp [execSteps, h]

theorem execStep_agent_eq (ags : List Agent) (inv : Invoker) (dur : Nat → Nat)
    (input : Value) (st : ExecState) (id aid : String) (tmo : Option Nat) (r : Nat) :
    execStep ags inv dur input st (.agent id aid tmo r) =
      execAgent ags inv dur id aid r input st := rfl

theorem execStep_par_eq (ags : List Agent) (inv : Invoker) (dur : Nat → Nat)
    (input : Value) (st : ExecState) (id : String) (bs : List (String × String)) :
    execStep ags inv dur input st (.par id bs) =
      execPar ags inv dur id bs input st := rfl

theorem execStep_cond_of_eval {ags : List Agent} {inv : Invoker} {dur : Nat → Nat}
    {input : Value} {st : ExecState} {c : CExpr} {b : Bool} (id : String)
    (ts fs : List Step) (h : evalCond st.vars input c = .ok b) :
    execStep ags inv dur input st (.cond id c ts fs) =
      condCommit id (execSteps ags inv dur input st (bif b then ts else fs)) := by
  cases b <;> simp [execStep, h]

theorem execStep_cond_error {ags : List Agent} {inv : Invoker} {dur : Nat → Nat}
    {input : Value} {st : ExecState} {c : CExpr} {e : EngineError} (id : String)
    (ts fs : List Step) (h : evalCond st.vars input c = .error e) :
    execStep ags inv dur input st (.cond id c ts fs) =
      .failed (errString e)
        { st with
          history := st.history ++ [mkEntry id (dur st.hidx) false (some (errString e)) none],
          hidx := st.hidx + 1 } := by
  simp [execStep, h]

theorem execAgent_no_agent {ags : List Agent} {aid : String}
    (inv : Invoker) (dur : Nat → Nat) (id : String) (r : Nat) (input : Value)
    (st : ExecState) (h : findAgent ags aid = none) :
    execAgent ags inv dur id aid r input st = .fault (.UnknownAgent aid) := by
  simp [execAgent, h]

theorem execAgent_success {ags : List Agent} {inv : Invoker} {aid : String}
    {ag : Agent} {r : Nat} {input v : Value} {st : ExecState} {id : String}
    {vars' : VariableStore} (dur : Nat → Nat)
    (hf : findAgent ags aid = some ag)
    (hr : (resolveFallback inv ag r input st.aidx).1 = .ok v)
    (hs : VariableStore.set st.vars id v = .ok vars') :
    execAgent ags inv dur id aid r input st =
      .ok v { vars := vars',
              history := st.history ++
                [mkEntry id (dur st.hidx) true none
                  (resolveFallback inv ag r input st.aidx).2.1.getLast?],
              aidx := (resolveFallback inv ag r input st.aidx).2.2,
              hidx := st.hidx + 1 } := by
  simp [execAgent, hf, hr, hs]

theorem execAgent_set_fault {ags : List Agent} {inv : Invoker} {aid : String}
    {ag : Agent} {r : Nat} {input v : Value} {st : ExecState} {id : String}
    {e : EngineError} (dur : Nat → Nat)
    (hf : findAgent ags aid = some ag)
    (hr : (resolveFallback inv ag r input st.aidx).1 = .ok v)
    (hs : VariableStore.set st.vars id v = .error e) :
    execAgent ags inv dur id aid r input st = .fault e := by
  simp [execAgent, hf, hr, hs]

theorem execAgent_exhausted {ags : List Agent} {inv : Invoker} {aid : String}
    {ag : Agent} {r : Nat} {input : Value} {st : ExecState} {id : String}
    {es : List InvokeError} (dur : Nat → Nat)
    (hf : findAgent ags aid = some ag)
    (hr : (resolveFallback inv ag r input st.aidx).1 = .error es) :
    execAgent ags inv dur id aid r input st =
      .failed (errString (.AllModelsExhausted es))
        { st with
          history := st.history ++
            [mkEntry id (dur st.hidx) false (some (errString (.AllModelsExhausted es)))
              (resolveFallback inv ag r input st.aidx).2.1.getLast?],
          aidx := (resolveFallback inv ag r input st.aidx).2.2,
          hidx := st.hidx + 1 } := by
  simp [execAgent, hf, hr]

theorem condCommit_ok {st : ExecState} {id : String} {out : Value}
    {vars' : VariableStore}
    (hs : VariableStore.set st.vars id out = .ok vars') :
    condCommit id (.ok out st) = .ok out { st with vars := vars' } := by
  simp [condCommit, hs]

theorem condCommit_set_fault {st : ExecState} {id : String} {out : Value}
    {e : EngineError}
    (hs : VariableStore.set st.vars id out = .error e) :
    condCommit id (.ok out st) = .fault e := by
  simp [condCommit, hs]

theorem condCommit_failed (id : String) (e : String) (st : ExecState) :
    condCommit id (.failed e st) = .failed e st := rfl

theorem condCommit_fault (id : String) (e : EngineError) :
    condCommit id (.fault e) = .fault e := rfl

theorem execPar_branches_fault {ags : List Agent} {inv : Invoker}
    {dur : Nat → Nat} {input : Value} {st : ExecState}
    {bs : List (String × String)} {e : EngineError} (id : String)
    (h : runBranches ags inv dur input st bs = .error e) :
    execPar ags inv dur id bs input st = .fault e := by
  simp [execPar, h]

theorem execPar_branch_failed {ags : List Agent} {inv : Invoker}
    {dur : Nat → Nat} {input : Value} {st st' : ExecState}
    {bs : List (String × String)} {res : List (String × Except String Value)}
    {e : String} (id : String)
    (h : runBranches ags inv dur input st bs = .ok (res, st'))
    (he : firstBranchError res = some e) :
    execPar ags inv dur id bs input st = .failed e st' := by
  simp [execPar, h, he]

theorem execPar_success {ags : List Agent} {inv : Invoker}
    {dur : Nat → Nat} {input : Value} {st st' : ExecState}
    {bs : List (String × String)} {res : List (String × Except String Value)}
    {vars' : VariableStore} (id : String)
    (h : runBranches ags inv dur input st bs = .ok (res, st'))
    (hn : firstBranchError res = none)
    (hs : VariableStore.set st'.vars id (.obj (res.map (fun p => (p.1, okValue p.2)))) = .ok vars') :
    execPar ags inv dur id bs input st =
      .ok (.obj (res.map (fun p => (p.1, okValue p.2)))) { st' with vars := vars' } := by
  simp [execPar, h, hn, hs]

theorem execPar_set_fault {ags : List Agent} {inv : Invoker}
    {dur : Nat → Nat} {input : Value} {st st' : ExecState}
    {bs : List (String × String)} {res : List (String × Except String Value)}
    {e : EngineError} (id : String)
    (h : runBranches ags inv dur input st bs = .ok (res, st'))
    (hn : firstBranchError res = none)
    (hs : VariableStore.set st'.vars id (.obj (res.map (fun p => (p.1, okValue p.2)))) = .error e) :
    execPar ags inv dur id bs input st = .fault e := by
  simp [execPar, h, hn, hs]

theorem runBranches_spec (ags : List Agent) (inv : Invoker) (dur : Nat → Nat)
    (input : Value) :
    ∀ (bs : List (String × String)) (st : ExecState),
    (∀ aid ∈ bs.map Prod.snd, (findAgent ags aid).isSome) →
    ∃ res st' Δ,
      runBranches ags inv dur input st bs = .ok (res, st') ∧
      st'.vars = st.vars ∧
      st'.hidx = st.hidx + bs.length ∧
      st'.history = st.history ++ Δ ∧
      Δ.length = bs.length ∧
      res.length = bs.length ∧
      (∀ i, i < bs.length →
        (res.getD i ("", .error "")).1 = (bs.getD i ("", "")).1 ∧
        (Δ.getD i default).stepId = (bs.getD i ("", "")).1 ∧
        (Δ.getD i default).duration = dur (st.hidx + i) ∧
        ((Δ.getD i default).success = true ↔ ∃ v, (res.getD i ("", .error "")).2 = .ok v) ∧
        (∀ msg, (res.getD i ("", .error "")).2 = .error msg →
          (Δ.getD i default).error = some msg)) := by
  intro bs
  induction bs with
  | nil =>
    intro st hag
    exact ⟨[], st, [], rfl, rfl, by simp, by simp, rfl, rfl, by intro i hi; simp at hi⟩
  | cons b rest ih =>
    intro st hag
    obtain ⟨bid, aid⟩ := b
    obtain ⟨ag, hf⟩ := Option.isSome_iff_exists.mp (hag aid (by simp))
    cases hr : (resolveFallback inv ag 0 input st.aidx).1 with
    | ok v =>
      obtain ⟨res', st', Δ', hrun, hvars, hhidx, hhist, hΔlen, hreslen, hpt⟩ :=
        ih { st with
             history := st.history ++ [mkEntry bid (dur st.hidx) true none
               (resolveFallback inv ag 0 input st.aidx).2.1.getLast?],
             aidx := (resolveFallback inv ag 0 input st.aidx).2.2,
             hidx := st.hidx + 1 }
          (fun a ha => hag a (by simp; right; simpa using ha))
      refine ⟨(bid, .ok v) :: res', st',
        mkEntry bid (dur st.hidx) true none
          (resolveFallback inv ag 0 input st.aidx).2.1.getLast? :: Δ',
        ?_, ?_, ?_, ?_, ?_, ?_, ?_⟩
      · simp only [runBranches, hf, hr, hrun]
      · simpa using hvars
      · simp at hhidx; simp [hhidx]; omega
      · simp at hhist; simp [hhist]
      · simpa using hΔlen
      · simpa using hreslen
      · intro i hi
        cases i with
        | zero =>
          refine ⟨rfl, rfl, by simp [mkEntry], ?_, ?_⟩
          · simp [mkEntry]
          · intro msg hmsg; cases hmsg
        | succ i' =>
          have hpt' := hpt i' (by simpa using hi)
          simp only [List.getD_cons_succ]
          refine ⟨hpt'.1, hpt'.2.1, ?_, hpt'.2.2.2.1, hpt'.2.2.2.2⟩
          have := hpt'.2.2.1
          simp at this
          simpa [Nat.add_comm, Nat.add_assoc, Nat.add_left_comm] using this
    | error es =>
      obtain ⟨res', st', Δ', hrun, hvars, hhidx, hhist, hΔlen, hreslen, hpt⟩ :=
        ih { st with
             history := st.history ++ [mkEntry bid (dur st.hidx) false
               (some (errString (.AllModelsExhausted es)))
               (resolveFallback inv ag 0 input st.aidx).2.1.getLast?],
             aidx := (resolveFallback inv ag 0 input st.aidx).2.2,
             hidx := st.hidx + 1 }
          (fun a ha => hag a (by simp; right; simpa using ha))
      refine ⟨(bid, .error (errString (.AllModelsExhausted es))) :: res', st',
        mkEntry bid (dur st.hidx) false
          (some (errString (.AllModelsExhausted es)))
          (resolveFallback inv ag 0 input st.aidx).2.1.getLast? :: Δ',
        ?_, ?_, ?_, ?_, ?_, ?_, ?_⟩
      · simp only [runBranches, hf, hr, hrun]
      · simpa using hvars
      · simp at hhidx; simp [hhidx]; omega
      · simp at hhist; simp [hhist]
      · simpa using hΔlen
      · simpa using hreslen
      · intro i hi
        cases i with
        | zero =>
          refine ⟨rfl, rfl, by simp [mkEntry], ?_, ?_⟩
          · simp [mkEntry]
          · intro msg hmsg
            injection hmsg with h'
            simp [mkEntry, h']
        | succ i' =>
          have hpt' := hpt i' (by simpa using hi)
          simp only [List.getD_cons_succ]
          refine ⟨hpt'.1, hpt'.2.1, ?_, hpt'.2.2.2.1, hpt'.2.2.2.2⟩
          have := hpt'.2.2.1
          simp at this
          simpa [Nat.add_comm, Nat.add_assoc, Nat.add_left_comm] using this

mutual

theorem safe_step (ags : List Agent) (inv : Invoker) (dur : Nat → Nat) :
    ∀ (s : Step) (input : Value) (st : ExecState),
    (stepIds s).Nodup →
    (∀ x ∈ stepIds s, x ∉ VariableStore.keys st.vars) →
    (∀ aid ∈ stepAgentIds s, (findAgent ags aid).isSome) →
    notFault (VariableStore.keys st.vars) (stepIds s)
      (execStep ags inv dur input st s) := by
  intro s input st hnd hdisj hag
  cases s with
  | agent id aid tmo r =>
    rw [execStep_agent_eq]
    obtain ⟨ag, hf⟩ :=
      Option.isSome_iff_exists.mp (hag aid (by simp [stepAgentIds]))
    cases hr : (resolveFallback inv ag r input st.aidx).1 with
    | ok v =>
      have hid : id ∉ VariableStore.keys st.vars := hdisj id (by simp [stepIds])
      rw [execAgent_success dur hf hr (set_of_not_mem v hid)]
      show VariableStore.keys (st.vars ++ [(id, v)]) ⊆ _
      rw [keys_append_single]
      simp [stepIds]
    | error es =>
      rw [execAgent_exhausted dur hf hr]
      show VariableStore.keys st.vars ⊆ _
      exact List.subset_append_left _ _
  | cond id c ts fs =>
    cases hev : evalCond st.vars input c with
    | error e =>
      rw [execStep_cond_error id ts fs hev]
      show VariableStore.keys st.vars ⊆ _
      exact List.subset_append_left _ _
    | ok b =>
      rw [execStep_cond_of_eval id ts fs hev]
      have hndN : (id :: (stepsIds ts ++ stepsIds fs)).Nodup := by
        simpa [stepIds] using hnd
      have hidsel : id ∉ stepsIds ts ++ stepsIds fs := (List.nodup_cons.mp hndN).1
      have hndtf : (stepsIds ts ++ stepsIds fs).Nodup := (List.nodup_cons.mp hndN).2
      have hmemid : id ∈ stepIds (Step.cond id c ts fs) := List.mem_cons_self id _
      have key : ∀ sel : List Step,
          stepsIds sel ⊆ stepsIds ts ++ stepsIds fs →
          notFault (VariableStore.keys st.vars) (stepsIds sel)
            (execSteps ags inv dur input st sel) →
          notFault (VariableStore.keys st.vars) (stepIds (Step.cond id c ts fs))
            (condCommit id (execSteps ags inv dur input st sel)) := by
        intro sel hsub IH
        have hsub' : stepsIds sel ⊆ stepIds (Step.cond id c ts fs) := by
          intro x hx
          exact List.mem_cons_of_mem id (List.mem_append.mpr (List.mem_append.mp (hsub hx)))
        cases hres : execSteps ags inv dur input st sel with
        | ok out stB =>
          rw [hres] at IH
          have hkeys : VariableStore.keys stB.vars ⊆
              VariableStore.keys st.vars ++ stepsIds sel := IH
          have hidB : id ∉ VariableStore.keys stB.vars := by
            intro hmem
            rcases List.mem_append.mp (hkeys hmem) with h1 | h1
            · exact hdisj id hmemid h1
            · exact hidsel (hsub h1)
          rw [condCommit_ok (set_of_not_mem out hidB)]
          show VariableStore.keys (stB.vars ++ [(id, out)]) ⊆ _
          rw [keys_append_single]
          intro x hx
          rcases List.mem_append.mp hx with h1 | h1
          · rcases List.mem_append.mp (hkeys h1) with h2 | h2
            · exact List.mem_append.mpr (.inl h2)
            · exact List.mem_append.mpr (.inr (hsub' h2))
          · simp only [List.mem_singleton] at h1
            exact List.mem_append.mpr (.inr (h1 ▸ hmemid))
        | failed e stB =>
          rw [hres] at IH
          rw [condCommit_failed]
          show VariableStore.keys stB.vars ⊆ _
          intro x hx
          rcases List.mem_append.mp (IH hx) with h1 | h1
          · exact List.mem_append.mpr (.inl h1)
          · exact List.mem_append.mpr (.inr (hsub' h1))
        | fault e =>
          rw [hres] at IH
          exact IH.elim
      cases b with
      | true =>
        refine key ts (List.subset_append_left _ _) ?_
        refine safe_steps ags inv dur ts input st hndtf.of_append_left ?_ ?_
        · intro x hx
          exact hdisj x (List.mem_cons_of_mem id (List.mem_append.mpr (.inl hx)))
        · intro aid ha
          exact hag aid (List.mem_append.mpr (.inl ha))
      | false =>
        refine key fs (List.subset_append_right _ _) ?_
        refine safe_steps ags inv dur fs input st hndtf.of_append_right ?_ ?_
        · intro x hx
          exact hdisj x (List.mem_cons_of_mem id (List.mem_append.mpr (.inr hx)))
        · intro aid ha
          exact hag aid (List.mem_append.mpr (.inr ha))
  | par id bs =>
    rw [execStep_par_eq]
    have hagbs : ∀ aid ∈ bs.map Prod.snd, (findAgent ags aid).isSome := by
      intro aid ha
      exact hag aid (by simpa [stepAgentIds] using ha)
    obtain ⟨res, st', Δ, hrun, hvars, _, _, _, _, _⟩ :=
      runBranches_spec ags inv dur input bs st hagbs
    cases hfb : firstBranchError res with
    | some e =>
      rw [execPar_branch_failed id hrun hfb]
      show VariableStore.keys st'.vars ⊆ _
      rw [hvars]
      exact List.subset_append_left _ _
    | none =>
      have hid : id ∉ VariableStore.keys st'.vars := by
        rw [hvars]
        exact hdisj id (by simp [stepIds])
      rw [execPar_success id hrun hfb (set_of_not_mem _ hid)]
      show VariableStore.keys (st'.vars ++ [(id, _)]) ⊆ _
      rw [keys_append_single, hvars]
      intro x hx
      rcases List.mem_append.mp hx with h1 | h1
      · exact List.mem_append.mpr (.inl h1)
      · refine List.mem_append.mpr (.inr ?_)
        simp at h1
        simp [stepIds, h1]

theorem safe_steps (ags : List Agent) (inv : Invoker) (dur : Nat → Nat) :
    ∀ (l : List Step) (input : Value) (st : ExecState),
    (stepsIds l).Nodup →
    (∀ x ∈ stepsIds l, x ∉ VariableStore.keys st.vars) →
    (∀ aid ∈ stepsAgentIds l, (findAgent ags aid).isSome) →
    notFault (VariableStore.keys st.vars) (stepsIds l)
      (execSteps ags inv dur input st l) := by
  intro l input st hnd hdisj hag
  cases l with
  | nil =>
    rw [execSteps_nil_eq]
    show VariableStore.keys st.vars ⊆ _
    exact List.subset_append_left _ _
  | cons s rest =>
    have hndAll : (stepIds s ++ stepsIds rest).Nodup := by simpa [stepsIds] using hnd
    have hdj : (stepIds s).Disjoint (stepsIds rest) :=
      List.disjoint_of_nodup_append hndAll
    have IH1 := safe_step ags inv dur s input st hndAll.of_append_left
      (fun x hx => hdisj x (by simp [stepsIds]; exact .inl hx))
      (fun aid ha => hag aid (by simp [stepsAgentIds]; exact .inl ha))
    cases hres : execStep ags inv dur input st s with
    | ok out st' =>
      rw [hres] at IH1
      rw [execSteps_cons_ok rest hres]
      have hdisj' : ∀ x ∈ stepsIds rest, x ∉ VariableStore.keys st'.vars := by
        intro x hx hmem
        rcases List.mem_append.mp (IH1 hmem) with h1 | h1
        · exact hdisj x (by simp [stepsIds]; exact .inr hx) h1
        · exact hdj h1 hx
      have IH2 := safe_steps ags inv dur rest out st' hndAll.of_append_right hdisj'
        (fun aid ha => hag aid (by simp [stepsAgentIds]; exact .inr ha))
      cases hres2 : execSteps ags inv dur out st' rest with
      | ok out2 st'' =>
        rw [hres2] at IH2
        show VariableStore.keys st''.vars ⊆ _
        intro x hx
        rcases List.mem_append.mp (IH2 hx) with h1 | h1
        · rcases List.mem_append.mp (IH1 h1) with h2 | h2
          · exact List.mem_append.mpr (.inl h2)
          · exact List.mem_append.mpr (.inr (by simp [stepsIds]; exact .inl h2))
        · exact List.mem_append.mpr (.inr (by simp [stepsIds]; exact .inr h1))
      | failed e st'' =>
        rw [hres2] at IH2
        show VariableStore.keys st''.vars ⊆ _
        intro x hx
        rcases List.mem_append.mp (IH2 hx) with h1 | h1
        · rcases List.mem_append.mp (IH1 h1) with h2 | h2
          · exact List.mem_append.mpr (.inl h2)
          · exact List.mem_append.mpr (.inr (by simp [stepsIds]; exact .inl h2))
        · exact List.mem_append.mpr (.inr (by simp [stepsIds]; exact .inr h1))
      | fault e =>
        rw [hres2] at IH2
        exact IH2.elim
    | failed e st' =>
      rw [hres] at IH1
      rw [execSteps_cons_failed rest hres]
      show VariableStore.keys st'.vars ⊆ _
      intro x hx
      rcases List.mem_append.mp (IH1 hx) with h1 | h1
      · exact List.mem_append.mpr (.inl h1)
      · exact List.mem_append.mpr (.inr (by simp [stepsIds]; exact .inl h1))
    | fault e =>
      rw [hres] at IH1
      exact IH1.elim

end

theorem runBranches_vars (ags : List Agent) (inv : Invoker) (dur : Nat → Nat)
    (input : Value) :
    ∀ (bs : List (String × String)) (st : ExecState)
      (res : List (String × Except String Value)) (st' : ExecState),
    runBranches ags inv dur input st bs = .ok (res, st') →
    st'.vars = st.vars := by
  intro bs
  induction bs with
  | nil =>
    intro st res st' h
    simp only [runBranches] at h
    obtain ⟨-, rfl⟩ : res = [] ∧ st = st' := by
      constructor
      · injection h with h'; exact (congrArg Prod.fst h').symm
      · injection h with h'; exact congrArg Prod.snd h'
    rfl
  | cons b rest ih =>
    intro st res st' h
    obtain ⟨bid, aid⟩ := b
    cases hf : findAgent ags aid with
    | none => simp only [runBranches, hf] at h; cases h
    | some ag =>
      cases hr : (resolveFallback inv ag 0 input st.aidx).1 with
      | ok v =>
        simp only [runBranches, hf, hr] at h
        cases hrec : runBranches ags inv dur input
            { st with
              history := st.history ++ [mkEntry bid (dur st.hidx) true none
                (resolveFallback inv ag 0 input st.aidx).2.1.getLast?],
              aidx := (resolveFallback inv ag 0 input st.aidx).2.2,
              hidx := st.hidx + 1 } rest with
        | error e => rw [hrec] at h; simp at h
        | ok p =>
          obtain ⟨res', st''⟩ := p
          rw [hrec] at h
          simp at h
          obtain ⟨-, rfl⟩ := h
          simpa using ih _ _ _ hrec
      | error es =>
        simp only [runBranches, hf, hr] at h
        cases hrec : runBranches ags inv dur input
            { st with
              history := st.history ++ [mkEntry bid (dur st.hidx) false
                (some (errString (.AllModelsExhausted es)))
                (resolveFallback inv ag 0 input st.aidx).2.1.getLast?],
              aidx := (resolveFallback inv ag 0 input st.aidx).2.2,
              hidx := st.hidx + 1 } rest with
        | error e => rw [hrec] at h; simp at h
        | ok p =>
          obtain ⟨res', st''⟩ := p
          rw [hrec] at h
          simp at h
          obtain ⟨-, rfl⟩ := h
          simpa using ih _ _ _ hrec

mutual

theorem nodup_step (ags : List Agent) (inv : Invoker) (dur : Nat → Nat) :
    ∀ (s : Step) (input : Value) (st : ExecState),
    (VariableStore.keys st.vars).Nodup →
    resNodup (execStep ags inv dur input st s) := by
  intro s input st hnd
  cases s with
  | agent id aid tmo r =>
    rw [execStep_agent_eq]
    cases hf : findAgent ags aid with
    | none => rw [execAgent_no_agent inv dur id r input st hf]; trivial
    | some ag =>
      cases hr : (resolveFallback inv ag r input st.aidx).1 with
      | ok v =>
        cases hs : VariableStore.set st.vars id v with
        | error e => rw [execAgent_set_fault dur hf hr hs]; trivial
        | ok vars' =>
          rw [execAgent_success dur hf hr hs]
          exact nodup_set_ok hs hnd
      | error es =>
        rw [execAgent_exhausted dur hf hr]
        exact hnd
  | cond id c ts fs =>
    cases hev : evalCond st.vars input c with
    | error e => rw [execStep_cond_error id ts fs hev]; exact hnd
    | ok b =>
      rw [execStep_cond_of_eval id ts fs hev]
      have key : ∀ sel : List Step,
          resNodup (execSteps ags inv dur input st sel) →
          resNodup (condCommit id (execSteps ags inv dur input st sel)) := by
        intro sel IH
        cases hres : execSteps ags inv dur input st sel with
        | ok out stB =>
          rw [hres] at IH
          cases hs : VariableStore.set stB.vars id out with
          | error e => rw [condCommit_set_fault hs]; trivial
          | ok vars' =>
            rw [condCommit_ok hs]
            exact nodup_set_ok hs IH
        | failed e stB => rw [condCommit_failed]; rw [hres] at IH; exact IH
        | fault e => rw [condCommit_fault]; trivial
      cases b with
      | true => exact key ts (nodup_steps ags inv dur ts input st hnd)
      | false => exact key fs (nodup_steps ags inv dur fs input st hnd)
  | par id bs =>
    rw [execStep_par_eq]
    cases hrun : runBranches ags inv dur input st bs with
    | error e => rw [execPar_branches_fault id hrun]; trivial
    | ok p =>
      obtain ⟨res, st'⟩ := p
      have hvars : st'.vars = st.vars := runBranches_vars ags inv dur input bs st res st' hrun
      cases hfb : firstBranchError res with
      | some e =>
        rw [execPar_branch_failed id hrun hfb]
        show (VariableStore.keys st'.vars).Nodup
        rw [hvars]; exact hnd
      | none =>
        cases hs : VariableStore.set st'.vars id
            (.obj (res.map (fun p => (p.1, okValue p.2)))) with
        | error e => rw [execPar_set_fault id hrun hfb hs]; trivial
        | ok vars' =>
          rw [execPar_success id hrun hfb hs]
          exact nodup_set_ok hs (hvars ▸ hnd)

theorem nodup_steps (ags : List Agent) (inv : Invoker) (dur : Nat → Nat) :
    ∀ (l : List Step) (input : Value) (st : ExecState),
    (VariableStore.keys st.vars).Nodup →
    resNodup (execSteps ags inv dur input st l) := by
  intro l input st hnd
  cases l with
  | nil => rw [execSteps_nil_eq]; exact hnd
  | cons s rest =>
    have IH1 := nodup_step ags inv dur s input st hnd
    cases hres : execStep ags inv dur input st s with
    | ok out st' =>
      rw [hres] at IH1
      rw [execSteps_cons_ok rest hres]
      exact nodup_steps ags inv dur rest out st' IH1
    | failed e st' =>
      rw [hres] at IH1
      rw [execSteps_cons_failed rest hres]
      exact IH1
    | fault e =>
      rw [execSteps_cons_fault rest hres]
      trivial

end

theorem runBranches_shape (ags : List Agent) (inv : Invoker) (dur : Nat → Nat)
    (input : Value) :
    ∀ (bs : List (String × String)) (st : ExecState)
      (res : List (String × Except String Value)) (st' : ExecState),
    runBranches ags inv dur input st bs = .ok (res, st') →
    st'.vars = st.vars ∧
    ∃ Δ, st'.history = st.history ++ Δ ∧ st'.hidx = st.hidx + Δ.length ∧
      (∀ e ∈ Δ, e.stepId ∈ bs.map Prod.fst) ∧
      (∀ i, i < Δ.length → (Δ.getD i default).duration = dur (st.hidx + i)) := by
  intro bs
  induction bs with
  | nil =>
    intro st res st' h
    simp only [runBranches] at h
    obtain rfl : st = st' := by injection h with h'; exact congrArg Prod.snd h'
    exact ⟨rfl, [], by simp, by simp, by simp, by intro i hi; simp at hi⟩
  | cons b rest ih =>
    intro st res st' h
    obtain ⟨bid, aid⟩ := b
    cases hf : findAgent ags aid with
    | none => simp only [runBranches, hf] at h; cases h
    | some ag =>
      cases hr : (resolveFallback inv ag 0 input st.aidx).1 with
      | ok v =>
        simp only [runBranches, hf, hr] at h
        cases hrec : runBranches ags inv dur input
            { st with
              history := st.history ++ [mkEntry bid (dur st.hidx) true none
                (resolveFallback inv ag 0 input st.aidx).2.1.getLast?],
              aidx := (resolveFallback inv ag 0 input st.aidx).2.2,
              hidx := st.hidx + 1 } rest with
        | error e => rw [hrec] at h; simp at h
        | ok p =>
          obtain ⟨res', st''⟩ := p
          rw [hrec] at h
          simp at h
          obtain ⟨-, rfl⟩ := h
          obtain ⟨hvars, Δ', hhist, hhidx, hids, hdur⟩ := ih _ _ _ hrec
          refine ⟨by simpa using hvars,
            mkEntry bid (dur st.hidx) true none
              (resolveFallback inv ag 0 input st.aidx).2.1.getLast? :: Δ',
            ?_, ?_, ?_, ?_⟩
          · simp at hhist; simp [hhist]
          · simp at hhidx; simp [hhidx]; omega
          · intro e he
            rcases List.mem_cons.mp he with h1 | h1
            · simp [h1, mkEntry]
            · exact List.mem_cons_of_mem _ (hids e h1)
          · intro i hi
            cases i with
            | zero => simp [mkEntry]
            | succ i' =>
              have := hdur i' (by simpa using hi)
              simp at this
              simp only [List.getD_cons_succ]
              simpa [Nat.add_comm, Nat.add_assoc, Nat.add_left_comm] using this
      | error es =>
        simp only [runBranches, hf, hr] at h
        cases hrec : runBranches ags inv dur input
            { st with
              history := st.history ++ [mkEntry bid (dur st.hidx) false
                (some (errString (.AllModelsExhausted es)))
                (resolveFallback inv ag 0 input st.aidx).2.1.getLast?],
              aidx := (resolveFallback inv ag 0 input st.aidx).2.2,
              hidx := st.hidx + 1 } rest with
        | error e => rw [hrec] at h; simp at h
        | ok p =>
          obtain ⟨res', st''⟩ := p
          rw [hrec] at h
          simp at h
          obtain ⟨-, rfl⟩ := h
          obtain ⟨hvars, Δ', hhist, hhidx, hids, hdur⟩ := ih _ _ _ hrec
          refine ⟨by simpa using hvars,
            mkEntry bid (dur st.hidx) false
              (some (errString (.AllModelsExhausted es)))
              (resolveFallback inv ag 0 input st.aidx).2.1.getLast? :: Δ',
            ?_, ?_, ?_, ?_⟩
          · simp at hhist; simp [hhist]
          · simp at hhidx; simp [hhidx]; omega
          · intro e he
            rcases List.mem_cons.mp he with h1 | h1
            · simp [h1, mkEntry]
            · exact List.mem_cons_of_mem _ (hids e h1)
          · intro i hi
            cases i with
            | zero => simp [mkEntry]
            | succ i' =>
              have := hdur i' (by simpa using hi)
              simp at this
              simp only [List.getD_cons_succ]
              simpa [Nat.add_comm, Nat.add_assoc, Nat.add_left_comm] using this

mutual

theorem hist_step (ags : List Agent) (inv : Invoker) (dur : Nat → Nat) :
    ∀ (s : Step) (input : Value) (st st' : ExecState),
    resStateOf (execStep ags inv dur input st s) = some st' →
    ∃ Δ, st'.history = st.history ++ Δ ∧ st'.hidx = st.hidx + Δ.length ∧
      (∀ e ∈ Δ, e.stepId ∈ stepIds s) ∧
      (∀ i, i < Δ.length → (Δ.getD i default).duration = dur (st.hidx + i)) := by
  intro s input st st' h
  cases s with
  | agent id aid tmo r =>
    rw [execStep_agent_eq] at h
    cases hf : findAgent ags aid with
    | none => rw [execAgent_no_agent inv dur id r input st hf] at h; cases h
    | some ag =>
      cases hr : (resolveFallback inv ag r input st.aidx).1 with
      | ok v =>
        cases hs : VariableStore.set st.vars id v with
        | error e => rw [execAgent_set_fault dur hf hr hs] at h; cases h
        | ok vars' =>
          rw [execAgent_success dur hf hr hs] at h
          obtain rfl : _ = st' := by injection h
          refine ⟨[mkEntry id (dur st.hidx) true none
            (resolveFallback inv ag r input st.aidx).2.1.getLast?], by simp, by simp, ?_, ?_⟩
          · intro e he
            simp at he
            simp [he, mkEntry, stepIds]
          · intro i hi
            simp at hi
            simp [hi, mkEntry]
      | error es =>
        rw [execAgent_exhausted dur hf hr] at h
        obtain rfl : _ = st' := by injection h
        refine ⟨[mkEntry id (dur st.hidx) false
          (some (errString (.AllModelsExhausted es)))
          (resolveFallback inv ag r input st.aidx).2.1.getLast?], by simp, by simp, ?_, ?_⟩
        · intro e he
          simp at he
          simp [he, mkEntry, stepIds]
        · intro i hi
          simp at hi
          simp [hi, mkEntry]
  | cond id c ts fs =>
    cases hev : evalCond st.vars input c with
    | error e =>
      rw [execStep_cond_error id ts fs hev] at h
      obtain rfl : _ = st' := by injection h
      refine ⟨[mkEntry id (dur st.hidx) false (some (errString e)) none],
        by simp, by simp, ?_, ?_⟩
      · intro e' he
        simp at he
        simp [he, mkEntry, stepIds]
      · intro i hi
        simp at hi
        simp [hi, mkEntry]
    | ok b =>
      rw [execStep_cond_of_eval id ts fs hev] at h
      have key : ∀ sel : List Step,
          (stepsIds sel ⊆ stepsIds ts ++ stepsIds fs) →
          (∀ st'', resStateOf (execSteps ags inv dur input st sel) = some st'' →
            ∃ Δ, st''.history = st.history ++ Δ ∧ st''.hidx = st.hidx + Δ.length ∧
              (∀ e ∈ Δ, e.stepId ∈ stepsIds sel) ∧
              (∀ i, i < Δ.length → (Δ.getD i default).duration = dur (st.hidx + i))) →
          resStateOf (condCommit id (execSteps ags inv dur input st sel)) = some st' →
          ∃ Δ, st'.history = st.history ++ Δ ∧ st'.hidx = st.hidx + Δ.length ∧
            (∀ e ∈ Δ, e.stepId ∈ stepIds (Step.cond id c ts fs)) ∧
            (∀ i, i < Δ.length → (Δ.getD i default).duration = dur (st.hidx + i)) := by
        intro sel hsub IH hcc
        cases hres : execSteps ags inv dur input st sel with
        | ok out stB =>
          obtain ⟨Δ, hhist, hhidx, hids, hdur⟩ := IH stB (by rw [hres]; rfl)
          rw [hres] at hcc
          cases hs : VariableStore.set stB.vars id out with
          | error e => rw [condCommit_set_fault hs] at hcc; cases hcc
          | ok vars' =>
            rw [condCommit_ok hs] at hcc
            obtain rfl : _ = st' := by injection hcc
            refine ⟨Δ, by simpa using hhist, by simpa using hhidx, ?_, hdur⟩
            intro e he
            exact List.mem_cons_of_mem id
              (List.mem_append.mpr (List.mem_append.mp (hsub (hids e he))))
        | failed e stB =>
          rw [hres, condCommit_failed] at hcc
          obtain rfl : stB = st' := by injection hcc
          obtain ⟨Δ, hhist, hhidx, hids, hdur⟩ := IH stB (by rw [hres]; rfl)
          refine ⟨Δ, hhist, hhidx, ?_, hdur⟩
          intro e' he
          exact List.mem_cons_of_mem id
            (List.mem_append.mpr (List.mem_append.mp (hsub (hids e' he))))
        | fault e => rw [hres, condCommit_fault] at hcc; cases hcc
      cases b with
      | true =>
        exact key ts (List.subset_append_left _ _)
          (fun st'' h'' => hist_steps ags inv dur ts input st st'' h'') h
      | false =>
        exact key fs (List.subset_append_right _ _)
          (fun st'' h'' => hist_steps ags inv dur fs input st st'' h'') h
  | par id bs =>
    rw [execStep_par_eq] at h
    cases hrun : runBranches ags inv dur input st bs with
    | error e => rw [execPar_branches_fault id hrun] at h; cases h
    | ok p =>
      obtain ⟨res, stP⟩ := p
      obtain ⟨hvars, Δ, hhist, hhidx, hids, hdur⟩ :=
        runBranches_shape ags inv dur input bs st res stP hrun
      have hids' : ∀ e ∈ Δ, e.stepId ∈ stepIds (Step.par id bs) := by
        intro e he
        exact List.mem_cons_of_mem id (hids e he)
      cases hfb : firstBranchError res with
      | some e =>
        rw [execPar_branch_failed id hrun hfb] at h
        obtain rfl : stP = st' := by injection h
        exact ⟨Δ, hhist, hhidx, hids', hdur⟩
      | none =>
        cases hs : VariableStore.set stP.vars id
            (.obj (res.map (fun p => (p.1, okValue p.2)))) with
        | error e => rw [execPar_set_fault id hrun hfb hs] at h; cases h
        | ok vars' =>
          rw [execPar_success id hrun hfb hs] at h
          obtain rfl : _ = st' := by injection h
          exact ⟨Δ, by simpa using hhist, by simpa using hhidx, hids', hdur⟩

theorem hist_steps (ags : List Agent) (inv : Invoker) (dur : Nat → Nat) :
    ∀ (l : List Step) (input : Value) (st st' : ExecState),
    resStateOf (execSteps ags inv dur input st l) = some st' →
    ∃ Δ, st'.history = st.history ++ Δ ∧ st'.hidx = st.hidx + Δ.length ∧
      (∀ e ∈ Δ, e.stepId ∈ stepsIds l) ∧
      (∀ i, i < Δ.length → (Δ.getD i default).duration = dur (st.hidx + i)) := by
  intro l input st st' h
  cases l with
  | nil =>
    rw [execSteps_nil_eq] at h
    obtain rfl : st = st' := by injection h
    exact ⟨[], by simp, by simp, by simp, by intro i hi; simp at hi⟩
  | cons s rest =>
    cases hres : execStep ags inv dur input st s with
    | ok out st₁ =>
      rw [execSteps_cons_ok rest hres] at h
      obtain ⟨Δ₁, hh1, hx1, hi1, hd1⟩ :=
        hist_step ags inv dur s input st st₁ (by rw [hres]; rfl)
      obtain ⟨Δ₂, hh2, hx2, hi2, hd2⟩ :=
        hist_steps ags inv dur rest out st₁ st' h
      refine ⟨Δ₁ ++ Δ₂, ?_, ?_, ?_, ?_⟩
      · rw [hh2, hh1, List.append_assoc]
      · rw [hx2, hx1, List.length_append]; omega
      · intro e he
        rcases List.mem_append.mp he with h1 | h1
        · exact List.mem_append.mpr (.inl (hi1 e h1))
        · exact List.mem_append.mpr (.inr (hi2 e h1))
      · intro i hi
        rcases Nat.lt_or_ge i Δ₁.length with h1 | h1
        · rw [List.getD_append _ _ _ _ h1]
          exact hd1 i h1
        · rw [List.getD_append_right _ _ _ _ h1]
          have := hd2 (i - Δ₁.length) (by rw [List.length_append] at hi; omega)
          rw [hx1] at this
          have harith : st.hidx + Δ₁.length + (i - Δ₁.length) = st.hidx + i := by omega
          rwa [harith] at this
    | failed e st₁ =>
      rw [execSteps_cons_failed rest hres] at h
      obtain rfl : st₁ = st' := by injection h
      obtain ⟨Δ₁, hh1, hx1, hi1, hd1⟩ :=
        hist_step ags inv dur s input st st₁ (by rw [hres]; rfl)
      refine ⟨Δ₁, hh1, hx1, ?_, hd1⟩
      intro e' he
      exact List.mem_append.mpr (.inl (hi1 e' he))
    | fault e =>
      rw [execSteps_cons_fault rest hres] at h
      cases h

end

theorem registerWorkflow_ok_inv {reg₀ reg : Registry} {w : Workflow}
    (h : registerWorkflow reg₀ w = .ok reg) :
    reg.agents = reg₀.agents ∧
    reg.workflows = reg₀.workflows ++ [w] ∧
    reg₀.findWorkflow w.id = none ∧
    (∀ aid ∈ stepsAgentIds w.steps, (findAgent reg₀.agents aid).isSome) ∧
    (stepsIds w.steps).Nodup := by
  unfold registerWorkflow at h
  cases hfw : reg₀.findWorkflow w.id with
  | some w' => rw [hfw] at h; simp at h
  | none =>
    rw [hfw] at h
    simp only [Option.isSome_none, Bool.false_eq_true, if_false] at h
    cases hfind : (stepsAgentIds w.steps).find?
        (fun aid => (findAgent reg₀.agents aid).isNone) with
    | some aid => rw [hfind] at h; simp at h
    | none =>
      rw [hfind] at h
      by_cases h2 : (stepsIds w.steps).Nodup
      · rw [if_pos h2] at h
        injection h with h'
        refine ⟨by rw [← h'], by rw [← h'], rfl, ?_, h2⟩
        intro aid ha
        have := List.find?_eq_none.mp hfind aid ha
        simpa [Option.isNone_iff_eq_none, Option.isSome_iff_ne_none] using this
      · rw [if_neg h2] at h; cases h

theorem findWorkflow_register {reg₀ reg : Registry} {w : Workflow}
    (h : registerWorkflow reg₀ w = .ok reg) :
    reg.findWorkflow w.id = some w := by
  obtain ⟨-, hw, hnone, -, -⟩ := registerWorkflow_ok_inv h
  unfold Registry.findWorkflow at hnone ⊢
  rw [hw, List.find?_append, hnone]
  simp

theorem initState_keys : VariableStore.keys initState.vars = [] := rfl

theorem execute_none {reg : Registry} {wid : String}
    (inv : Invoker) (dur : Nat → Nat) (t : Nat) (env : String) (input : Value)
    (hfw : reg.findWorkflow wid = none) :
    execute reg inv dur t env wid input = .error (.NotFound wid) := by
  simp [execute, hfw]

theorem execute_some_ok {reg : Registry} {wid : String} {w : Workflow}
    {inv : Invoker} {dur : Nat → Nat} {input out : Value} {st : ExecState}
    (t : Nat) (env : String)
    (hfw : reg.findWorkflow wid = some w)
    (hres : execSteps reg.agents inv dur input initState w.steps = .ok out st) :
    execute reg inv dur t env wid input = .ok (mkResult wid t env true st) := by
  simp [execute, hfw, hres]

theorem execute_some_failed {reg : Registry} {wid : String} {w : Workflow}
    {inv : Invoker} {dur : Nat → Nat} {input : Value} {e : String} {st : ExecState}
    (t : Nat) (env : String)
    (hfw : reg.findWorkflow wid = some w)
    (hres : execSteps reg.agents inv dur input initState w.steps = .failed e st) :
    execute reg inv dur t env wid input = .ok (mkResult wid t env false st) := by
  simp [execute, hfw, hres]

theorem execute_some_fault {reg : Registry} {wid : String} {w : Workflow}
    {inv : Invoker} {dur : Nat → Nat} {input : Value} {e : EngineError}
    (t : Nat) (env : String)
    (hfw : reg.findWorkflow wid = some w)
    (hres : execSteps reg.agents inv dur input initState w.steps = .fault e) :
    execute reg inv dur t env wid input = .error e := by
  simp [execute, hfw, hres]

theorem execute_registered {reg₀ reg : Registry} {w : Workflow}
    (inv : Invoker) (dur : Nat → Nat) (t : Nat) (env : String) (input : Value)
    (h : registerWorkflow reg₀ w = .ok reg) :
    ∃ res, execute reg inv dur t env w.id input = .ok res := by
  obtain ⟨hags, -, -, hag, hnd⟩ := registerWorkflow_ok_inv h
  have hfw := findWorkflow_register h
  have hsafe := safe_steps reg.agents inv dur w.steps input initState hnd
    (by intro x hx; simp [initState, VariableStore.keys])
    (by intro aid ha; rw [hags]; exact hag aid ha)
  cases hres : execSteps reg.agents inv dur input initState w.steps with
  | ok out st => exact ⟨_, execute_some_ok t env hfw hres⟩
  | failed e st => exact ⟨_, execute_some_failed t env hfw hres⟩
  | fault e => rw [hres] at hsafe; exact hsafe.elim

/-- C2: when a step fails, `execute` stops before attempting any later
top-level step and still returns a well-formed ExecutionResult with
`success = false`, with `variables` holding exactly the outputs committed
before the failure and `history` holding every attempted step including the
failing one; for a successfully registered workflow, ordinary runtime failures
are never thrown past the `execute` API boundary. -/
theorem execute_failFast_wellFormed :
    (∀ (ags : List Agent) (inv : Invoker) (dur : Nat → Nat) (s : Step)
        (rest : List Step) (input : Value) (st st' : ExecState) (e : String),
      execStep ags inv dur input st s = .failed e st' →
      execSteps ags inv dur input st (s :: rest) = .failed e st') ∧
    (∀ (reg₀ reg : Registry) (w : Workflow) (inv : Invoker) (dur : Nat → Nat)
        (t : Nat) (env : String) (input : Value),
      registerWorkflow reg₀ w = .ok reg →
      ∃ res, execute reg inv dur t env w.id input = .ok res) ∧
    (∀ (reg : Registry) (w : Workflow) (wid : String) (inv : Invoker)
        (dur : Nat → Nat) (t : Nat) (env : String) (input : Value)
        (e : String) (st' : ExecState),
      reg.findWorkflow wid = some w →
      execSteps reg.agents inv dur input initState w.steps = .failed e st' →
      execute reg inv dur t env wid input = .ok (mkResult wid t env false st') ∧
      (mkResult wid t env false st').success = false ∧
      (mkResult wid t env false st').«variables» = st'.vars ∧
      (mkResult wid t env false st').history = st'.history) := by
  refine ⟨?_, ?_, ?_⟩
  · intro ags inv dur s rest input st st' e h
    exact execSteps_cons_failed rest h
  · intro reg₀ reg w inv dur t env input h
    exact execute_registered inv dur t env input h
  · intro reg w wid inv dur t env input e st' hfw hres
    exact ⟨execute_some_failed t env hfw hres, rfl, rfl, rfl⟩

/-- Witness for C2: in the three-step workflow whose second step exhausts its
models, `execute` still returns a result; that result has `success = false`,
`variables` holding only step s1, two history entries, and step s3 absent. -/
theorem execute_failFast_wellFormed_witness :
    registerWorkflow regAB wfFail = .ok regFail ∧
    (∃ res, execute regFail invAB (fun _ => 1) 0 "node" "wfFail" (.str "t") = .ok res) ∧
    (execute regFail invAB (fun _ => 1) 0 "node" "wfFail" (.str "t")).toOption.map
      (fun r => (VariableStore.keys r.«variables», r.history.map HistoryEntry.stepId,
                 r.success)) =
      some (["s1"], ["s1", "s2"], false) := by
  refine ⟨rfl, ?_, rfl⟩
  exact execute_failFast_wellFormed.2.1 regAB regFail wfFail invAB (fun _ => 1)
    0 "node" (.str "t") rfl

theorem execSteps_append (ags : List Agent) (inv : Invoker) (dur : Nat → Nat) :
    ∀ (l₁ l₂ : List Step) (input : Value) (st : ExecState),
    execSteps ags inv dur input st (l₁ ++ l₂) =
      match execSteps ags inv dur input st l₁ with
      | .ok out st' => execSteps ags inv dur out st' l₂
      | r => r := by
  intro l₁
  induction l₁ with
  | nil => intro l₂ input st; rw [List.nil_append, execSteps_nil_eq]
  | cons s rest ih =>
    intro l₂ input st
    cases hres : execStep ags inv dur input st s with
    | ok out st' =>
      rw [List.cons_append, execSteps_cons_ok (rest ++ l₂) hres, ih,
        execSteps_cons_ok rest hres]
    | failed e st' =>
      rw [List.cons_append, execSteps_cons_failed (rest ++ l₂) hres,
        execSteps_cons_failed rest hres]
    | fault e =>
      rw [List.cons_append, execSteps_cons_fault (rest ++ l₂) hres,
        execSteps_cons_fault rest hres]

theorem execStep_ok_committed (ags : List Agent) (inv : Invoker)
    (dur : Nat → Nat) (s : Step) (input : Value) (st : ExecState)
    (out : Value) (st' : ExecState)
    (h : execStep ags inv dur input st s = .ok out st') :
    VariableStore.get st'.vars (topId s) = .ok out := by
  cases s with
  | agent id aid tmo r =>
    rw [execStep_agent_eq] at h
    cases hf : findAgent ags aid with
    | none => rw [execAgent_no_agent inv dur id r input st hf] at h; cases h
    | some ag =>
      cases hr : (resolveFallback inv ag r input st.aidx).1 with
      | ok v =>
        cases hs : VariableStore.set st.vars id v with
        | error e => rw [execAgent_set_fault dur hf hr hs] at h; cases h
        | ok vars' =>
          rw [execAgent_success dur hf hr hs] at h
          injection h with h1 h2
          subst h1
          subst h2
          exact get_set_self hs
      | error es => rw [execAgent_exhausted dur hf hr] at h; cases h
  | cond id c ts fs =>
    cases hev : evalCond st.vars input c with
    | error e => rw [execStep_cond_error id ts fs hev] at h; cases h
    | ok b =>
      rw [execStep_cond_of_eval id ts fs hev] at h
      cases hres : execSteps ags inv dur input st (bif b then ts else fs) with
      | ok o stB =>
        rw [hres] at h
        cases hs : VariableStore.set stB.vars id o with
        | error e => rw [condCommit_set_fault hs] at h; cases h
        | ok vars' =>
          rw [condCommit_ok hs] at h
          injection h with h1 h2
          subst h1
          subst h2
          exact get_set_self hs
      | failed e stB => rw [hres, condCommit_failed] at h; cases h
      | fault e => rw [hres, condCommit_fault] at h; cases h
  | par id bs =>
    rw [execStep_par_eq] at h
    cases hrun : runBranches ags inv dur input st bs with
    | error e => rw [execPar_branches_fault id hrun] at h; cases h
    | ok p =>
      obtain ⟨res, stP⟩ := p
      cases hfb : firstBranchError res with
      | some e => rw [execPar_branch_failed id hrun hfb] at h; cases h
      | none =>
        cases hs : VariableStore.set stP.vars id
            (.obj (res.map (fun p => (p.1, okValue p.2)))) with
        | error e => rw [execPar_set_fault id hrun hfb hs] at h; cases h
        | ok vars' =>
          rw [execPar_success id hrun hfb hs] at h
          injection h with h1 h2
          subst h1
          subst h2
          exact get_set_self hs

/-- C3: step inputs are determined purely by position: the head of a sequence
runs on the sequence's input, each later step runs on the committed output of
its immediately preceding sibling (which equals the value stored under that
sibling's id), and the sequence inside a ConditionStep branch runs on the
condition step's own input. -/
theorem step_input_resolution (ags : List Agent) (inv : Invoker)
    (dur : Nat → Nat) :
    (∀ (l₁ l₂ : List Step) (input : Value) (st : ExecState),
      execSteps ags inv dur input st (l₁ ++ l₂) =
        match execSteps ags inv dur input st l₁ with
        | .ok out st' => execSteps ags inv dur out st' l₂
        | r => r) ∧
    (∀ (s : Step) (rest : List Step) (input out : Value) (st st' : ExecState),
      execStep ags inv dur input st s = .ok out st' →
      execSteps ags inv dur input st (s :: rest) =
        execSteps ags inv dur out st' rest ∧
      VariableStore.get st'.vars (topId s) = .ok out) ∧
    (∀ (id : String) (c : CExpr) (ts fs : List Step) (input : Value)
        (st : ExecState) (b : Bool),
      evalCond st.vars input c = .ok b →
      execStep ags inv dur input st (.cond id c ts fs) =
        condCommit id (execSteps ags inv dur input st (bif b then ts else fs))) := by
  refine ⟨execSteps_append ags inv dur, ?_, ?_⟩
  · intro s rest input out st st' h
    exact ⟨execSteps_cons_ok rest h,
      execStep_ok_committed ags inv dur s input st out st' h⟩
  · intro id c ts fs input st b h
    exact execStep_cond_of_eval id ts fs h

/-- Witness for C3: in the two-step workflow, the second step runs on the
first step's committed output m1(t), which is exactly the value stored under
s1. -/
theorem step_input_resolution_witness :
    execSteps regOk.agents invOk (fun _ => 1) (.str "t") initState
        [Step.agent "s1" "agA" none 0, Step.agent "s2" "agB" none 0] =
      execSteps regOk.agents invOk (fun _ => 1) (.str "m1(t)") st1W
        [Step.agent "s2" "agB" none 0] ∧
    VariableStore.get st1W.vars "s1" = .ok (.str "m1(t)") := by
  exact (step_input_resolution regOk.agents invOk (fun _ => 1)).2.1
    (Step.agent "s1" "agA" none 0) [Step.agent "s2" "agB" none 0]
    (.str "t") (.str "m1(t)") initState st1W rfl

theorem findSome?_first {α β : Type _} (f : α → Option β) (d : α) :
    ∀ (l : List α) (b : β), l.findSome? f = some b →
    ∃ i, i < l.length ∧ f (l.getD i d) = some b ∧
      ∀ j, j < i → f (l.getD j d) = none := by
  intro l
  induction l with
  | nil => intro b h; simp at h
  | cons a rest ih =>
    intro b h
    rw [List.findSome?_cons] at h
    cases hf : f a with
    | some b' =>
      rw [hf] at h
      obtain rfl : b' = b := by simpa using h
      exact ⟨0, by simp, by simpa using hf, by omega⟩
    | none =>
      rw [hf] at h
      obtain ⟨i, hi, hfi, hprev⟩ := ih b h
      refine ⟨i + 1, by simpa using hi, by simpa using hfi, ?_⟩
      intro j hj
      cases j with
      | zero => simpa using hf
      | succ j' => simpa using hprev j' (by omega)

/-- C4: a ParallelStep with k branches records exactly one HistoryEntry per
branch (k entries, in declared branch order); it succeeds exactly when every
branch succeeds, and when at least one branch fails it transitions to Failed
carrying the first observed branch error while every branch has still run to
completion. -/
theorem parallel_all_or_nothing (ags : List Agent) (inv : Invoker)
    (dur : Nat → Nat) (id : String) (bs : List (String × String))
    (input : Value) (st : ExecState)
    (hag : ∀ aid ∈ bs.map Prod.snd, (findAgent ags aid).isSome)
    (hid : id ∉ VariableStore.keys st.vars) :
    ∃ res st' Δ,
      runBranches ags inv dur input st bs = .ok (res, st') ∧
      st'.history = st.history ++ Δ ∧
      Δ.length = bs.length ∧
      res.length = bs.length ∧
      (∀ i, i < bs.length →
        (Δ.getD i default).stepId = (bs.getD i ("", "")).1) ∧
      ((∀ e ∈ Δ, e.success = true) →
        ∃ out, execStep ags inv dur input st (.par id bs) =
          .ok out { st' with vars := st'.vars ++ [(id, out)] }) ∧
      (∀ out st'', execStep ags inv dur input st (.par id bs) = .ok out st'' →
        ∀ e ∈ Δ, e.success = true) ∧
      ((∃ e ∈ Δ, e.success = false) →
        ∃ msg i, i < res.length ∧
          execStep ags inv dur input st (.par id bs) = .failed msg st' ∧
          (res.getD i ("", .error "")).2 = .error msg ∧
          ∀ j, j < i → ∃ v, (res.getD j ("", .error "")).2 = .ok v) := by
  obtain ⟨res, st', Δ, hrun, hvars, hhidx, hhist, hΔlen, hreslen, hpt⟩ :=
    runBranches_spec ags inv dur input bs st hag
  have hid' : id ∉ VariableStore.keys st'.vars := by rw [hvars]; exact hid
  refine ⟨res, st', Δ, hrun, hhist, hΔlen, hreslen,
    fun i hi => (hpt i hi).2.1, ?_, ?_, ?_⟩
  · intro hall
    have hnone : firstBranchError res = none := by
      rw [firstBranchError, List.findSome?_eq_none_iff]
      intro p hp
      obtain ⟨i, hilt, hip⟩ := List.mem_iff_getElem.mp hp
      have hi : i < bs.length := by omega
      have hsucc : (Δ.getD i default).success = true := by
        refine hall _ ?_
        have : i < Δ.length := by omega
        rw [List.getD_eq_getElem Δ default this]
        exact List.getElem_mem this
      obtain ⟨v, hv⟩ := ((hpt i hi).2.2.2.1).mp hsucc
      rw [List.getD_eq_getElem res ("", .error "") hilt, hip] at hv
      simp [hv]
    have hset := set_of_not_mem (.obj (res.map (fun p => (p.1, okValue p.2)))) hid'
    refine ⟨.obj (res.map (fun p => (p.1, okValue p.2))), ?_⟩
    rw [execStep_par_eq]
    exact execPar_success id hrun hnone hset
  · intro out st'' hok e he
    have hnone : firstBranchError res = none := by
      cases hfb : firstBranchError res with
      | none => rfl
      | some msg =>
        rw [execStep_par_eq, execPar_branch_failed id hrun hfb] at hok
        cases hok
    have hallres := List.findSome?_eq_none_iff.mp (by rwa [firstBranchError] at hnone)
    obtain ⟨i, hilt, hie⟩ := List.mem_iff_getElem.mp he
    have hi : i < bs.length := by omega
    have hresi : i < res.length := by omega
    have : (match (res.getD i ("", .error "")).2 with
        | .error e => some e | .ok _ => none) = none := by
      have := hallres (res.getD i ("", .error ""))
        (by rw [List.getD_eq_getElem res ("", .error "") hresi]
            exact List.getElem_mem hresi)
      simpa using this
    have hok' : ∃ v, (res.getD i ("", .error "")).2 = .ok v := by
      cases hv : (res.getD i ("", .error "")).2 with
      | ok v => exact ⟨v, rfl⟩
      | error e' => rw [hv] at this; simp at this
    have := ((hpt i hi).2.2.2.1).mpr hok'
    rw [List.getD_eq_getElem Δ default (by omega), hie] at this
    exact this
  · intro ⟨e, he, hfe⟩
    obtain ⟨i, hilt, hie⟩ := List.mem_iff_getElem.mp he
    have hi : i < bs.length := by omega
    have hresi : i < res.length := by omega
    have hnotok : ¬ ∃ v, (res.getD i ("", .error "")).2 = .ok v := by
      intro hv
      have := ((hpt i hi).2.2.2.1).mpr hv
      rw [List.getD_eq_getElem Δ default (by omega), hie] at this
      rw [this] at hfe
      cases hfe
    have hiserr : ∃ msg, (res.getD i ("", .error "")).2 = .error msg := by
      cases hv : (res.getD i ("", .error "")).2 with
      | ok v => exact absurd ⟨v, hv⟩ hnotok
      | error msg => exact ⟨msg, rfl⟩
    obtain ⟨msg0, hmsg0⟩ := hiserr
    have hsome : ∃ m, firstBranchError res = some m := by
      cases hfb : firstBranchError res with
      | some m => exact ⟨m, rfl⟩
      | none =>
        have hallres := List.findSome?_eq_none_iff.mp
          (by rwa [firstBranchError] at hfb)
        have := hallres (res.getD i ("", .error ""))
          (by rw [List.getD_eq_getElem res ("", .error "") hresi]
              exact List.getElem_mem hresi)
        rw [hmsg0] at this
        simp at this
    obtain ⟨m, hfb⟩ := hsome
    obtain ⟨k, hk, hfk, hkprev⟩ :=
      findSome?_first (fun p => match p.2 with | .error e => some e | .ok _ => none)
        ("", .error "") res m (by rwa [firstBranchError] at hfb)
    have hkerr : (res.getD k ("", .error "")).2 = .error m := by
      cases hv : (res.getD k ("", .error "")).2 with
      | ok v => rw [hv] at hfk; simp at hfk
      | error m' =>
        rw [hv] at hfk
        simp at hfk
        rw [hfk]
    refine ⟨m, k, hk, ?_, hkerr, ?_⟩
    · rw [execStep_par_eq]
      exact execPar_branch_failed id hrun hfb
    · intro j hj
      have := hkprev j hj
      cases hv : (res.getD j ("", .error "")).2 with
      | ok v => exact ⟨v, rfl⟩
      | error m' => rw [hv] at this; simp at this

/-- Witness for C4: a two-branch parallel step whose second branch fails still
records both entries in order and fails with the first branch error. -/
theorem parallel_all_or_nothing_witness :
    execStep regAB.agents invAB (fun _ => 1) (.str "t") initState parStep =
      .failed "AllModelsExhausted" stParW ∧
    stParW.history.length = 2 ∧
    stParW.history.map HistoryEntry.stepId = ["b1", "b2"] ∧
    stParW.history.map HistoryEntry.success = [true, false] := by
  obtain ⟨res, st', Δ, hrun, hhist, hΔlen, hreslen, hids, hall, honly, hfail⟩ :=
    parallel_all_or_nothing regAB.agents invAB (fun _ => 1) "p1"
      [("b1", "agA"), ("b2", "agB")] (.str "t") initState (by decide)
      (by intro h; simp [initState, VariableStore.keys] at h)
  exact ⟨rfl, rfl, rfl, rfl⟩

/-- C5: the VariableStore is write-once per step id: `set` fails with
`DuplicateWrite` exactly when the id is already committed, and after any
`execute` call the returned variables never hold two entries for the same
step id. -/
theorem variableStore_write_once :
    (∀ (vs : VariableStore) (id : String) (v : Value),
      (id ∈ VariableStore.keys vs →
        VariableStore.set vs id v = .error (.DuplicateWrite id)) ∧
      (id ∉ VariableStore.keys vs →
        VariableStore.set vs id v = .ok (vs ++ [(id, v)]))) ∧
    (∀ (reg : Registry) (inv : Invoker) (dur : Nat → Nat) (t : Nat)
        (env : String) (wid : String) (input : Value) (res : ExecutionResult),
      execute reg inv dur t env wid input = .ok res →
      (VariableStore.keys res.«variables»).Nodup) := by
  refine ⟨fun vs id v => ⟨set_of_mem v, set_of_not_mem v⟩, ?_⟩
  intro reg inv dur t env wid input res h
  cases hfw : reg.findWorkflow wid with
  | none => rw [execute_none inv dur t env input hfw] at h; cases h
  | some w =>
    have hnd := nodup_steps reg.agents inv dur w.steps input initState
      (by rw [initState_keys]; exact List.nodup_nil)
    cases hres : execSteps reg.agents inv dur input initState w.steps with
    | ok out st =>
      rw [execute_some_ok t env hfw hres] at h
      rw [hres] at hnd
      obtain rfl : mkResult wid t env true st = res := by injection h
      exact hnd
    | failed e st =>
      rw [execute_some_failed t env hfw hres] at h
      rw [hres] at hnd
      obtain rfl : mkResult wid t env false st = res := by injection h
      exact hnd
    | fault e =>
      rw [execute_some_fault t env hfw hres] at h
      cases h

/-- Witness for C5: a duplicate write is rejected, and a concrete execute
result has duplicate-free variable keys. -/
theorem variableStore_write_once_witness :
    VariableStore.set [("a", Value.str "x")] "a" (.str "y") =
      .error (.DuplicateWrite "a") ∧
    (VariableStore.keys resFailW.«variables»).Nodup := by
  exact ⟨(variableStore_write_once.1 [("a", Value.str "x")] "a" (.str "y")).1
      (by decide),
    variableStore_write_once.2 regFail invAB (fun _ => 1) 0 "node" "wfFail"
      (.str "t") resFailW rfl⟩

/-- C6: a ConditionStep evaluates its condition against the current
VariableStore and resolved input, then executes exactly one branch as a nested
sequence — history gains entries only for steps of the selected branch — and
its committed output is the last step's output of the executed branch, stored
under the condition step's own id. -/
theorem condition_single_branch (ags : List Agent) (inv : Invoker)
    (dur : Nat → Nat) (id : String) (c : CExpr) (ts fs : List Step)
    (input : Value) (st : ExecState) (b : Bool)
    (hb : evalCond st.vars input c = .ok b) :
    execStep ags inv dur input st (.cond id c ts fs) =
      condCommit id (execSteps ags inv dur input st (bif b then ts else fs)) ∧
    (∀ (out : Value) (st' : ExecState) (vars' : VariableStore),
      execSteps ags inv dur input st (bif b then ts else fs) = .ok out st' →
      VariableStore.set st'.vars id out = .ok vars' →
      execStep ags inv dur input st (.cond id c ts fs) =
        .ok out { st' with vars := vars' } ∧
      VariableStore.get vars' id = .ok out) ∧
    (∀ (e : String) (st' : ExecState),
      execSteps ags inv dur input st (bif b then ts else fs) = .failed e st' →
      execStep ags inv dur input st (.cond id c ts fs) = .failed e st') ∧
    (∀ st'' : ExecState,
      resStateOf (execStep ags inv dur input st (.cond id c ts fs)) = some st'' →
      ∃ Δ, st''.history = st.history ++ Δ ∧
        ∀ e ∈ Δ, e.stepId ∈ stepsIds (bif b then ts else fs)) := by
  have h1 : execStep ags inv dur input st (.cond id c ts fs) =
      condCommit id (execSteps ags inv dur input st (bif b then ts else fs)) :=
    execStep_cond_of_eval id ts fs hb
  refine ⟨h1, ?_, ?_, ?_⟩
  · intro out st' vars' hres hset
    rw [h1, hres, condCommit_ok hset]
    exact ⟨rfl, get_set_self hset⟩
  · intro e st' hres
    rw [h1, hres, condCommit_failed]
  · intro st'' hcc
    rw [h1] at hcc
    cases hres : execSteps ags inv dur input st (bif b then ts else fs) with
    | ok out stB =>
      obtain ⟨Δ, hhist, -, hids, -⟩ := hist_steps ags inv dur
        (bif b then ts else fs) input st stB (by rw [hres]; rfl)
      rw [hres] at hcc
      cases hs : VariableStore.set stB.vars id out with
      | error e => rw [condCommit_set_fault hs] at hcc; cases hcc
      | ok vars' =>
        rw [condCommit_ok hs] at hcc
        obtain rfl : _ = st'' := by injection hcc
        exact ⟨Δ, by simpa using hhist, hids⟩
    | failed e stB =>
      rw [hres, condCommit_failed] at hcc
      obtain rfl : stB = st'' := by injection hcc
      obtain ⟨Δ, hhist, -, hids, -⟩ := hist_steps ags inv dur
        (bif b then ts else fs) input st stB (by rw [hres]; rfl)
      exact ⟨Δ, hhist, hids⟩
    | fault e => rw [hres, condCommit_fault] at hcc; cases hcc

/-- Witness for C6: with s1 committed as a 5-character string, the condition
length(variables.s1) > 100 evaluates to false, only the falseSteps branch
runs (history holds f1 only, t1 is absent), and the branch output is committed
under the condition step's id c1. -/
theorem condition_single_branch_witness :
    evalCond stS1.vars (.str "prev")
      (.gt (.length (.varRef "s1")) (.litNum 100)) = .ok false ∧
    execStep regAB.agents invAB (fun _ => 1) (.str "prev") stS1 condStep =
      .ok (.str "m1(prev)") { stCondW with vars := varsCondW } ∧
    VariableStore.get varsCondW "c1" = .ok (.str "m1(prev)") ∧
    stCondW.history.map HistoryEntry.stepId = ["f1"] := by
  have h := condition_single_branch regAB.agents invAB (fun _ => 1) "c1"
    (.gt (.length (.varRef "s1")) (.litNum 100))
    [Step.agent "t1" "agA" none 0] [Step.agent "f1" "agA" none 0]
    (.str "prev") stS1 false rfl
  obtain ⟨h2a, h2b⟩ := h.2.1 (.str "m1(prev)") stCondW varsCondW rfl rfl
  exact ⟨rfl, h2a, h2b, rfl⟩

/-- C7: `registerWorkflow` fails with `UnknownAgent` whenever any step of a
fresh workflow — nested branches included — references an agent id absent from
the Registry, and in a successfully registered workflow every referenced agent
id resolves against the unchanged agent table. -/
theorem registerWorkflow_unknown_agent :
    (∀ (reg : Registry) (w : Workflow),
      reg.findWorkflow w.id = none →
      (∃ aid ∈ stepsAgentIds w.steps, findAgent reg.agents aid = none) →
      ∃ aid, registerWorkflow reg w = .error (.UnknownAgent aid) ∧
        findAgent reg.agents aid = none ∧ aid ∈ stepsAgentIds w.steps) ∧
    (∀ (reg₀ reg : Registry) (w : Workflow),
      registerWorkflow reg₀ w = .ok reg →
      reg.agents = reg₀.agents ∧
      ∀ aid ∈ stepsAgentIds w.steps, (findAgent reg.agents aid).isSome) := by
  constructor
  · intro reg w hfw hex
    obtain ⟨aid₀, hmem, hnone⟩ := hex
    have hsome : ∃ aid', (stepsAgentIds w.steps).find?
        (fun aid => (findAgent reg.agents aid).isNone) = some aid' := by
      cases hf : (stepsAgentIds w.steps).find?
          (fun aid => (findAgent reg.agents aid).isNone) with
      | some a => exact ⟨a, rfl⟩
      | none =>
        have := List.find?_eq_none.mp hf aid₀ hmem
        simp [hnone] at this
    obtain ⟨aid', hf⟩ := hsome
    have hp := List.find?_some hf
    have hm := List.mem_of_find?_eq_some hf
    refine ⟨aid', ?_, by simpa [Option.isNone_iff_eq_none] using hp, hm⟩
    unfold registerWorkflow
    rw [hfw]
    simp only [Option.isSome_none, Bool.false_eq_true, if_false]
    rw [hf]
  · intro reg₀ reg w h
    obtain ⟨hags, -, -, hag, -⟩ := registerWorkflow_ok_inv h
    refine ⟨hags, fun aid ha => ?_⟩
    rw [hags]
    exact hag aid ha

/-- Witness for C7: registering a workflow whose only step references the
unregistered agent ghost fails with UnknownAgent, while registering the good
workflow succeeds and its agents resolve. -/
theorem registerWorkflow_unknown_agent_witness :
    registerWorkflow regAB wfBad = .error (.UnknownAgent "ghost") ∧
    registerWorkflow regAB wfOk = .ok regOk ∧
    (findAgent regOk.agents "agA").isSome = true := by
  obtain ⟨aid, -, -, -⟩ :=
    registerWorkflow_unknown_agent.1 regAB wfBad rfl ⟨"ghost", by decide, rfl⟩
  have h2 := registerWorkflow_unknown_agent.2 regAB regOk wfOk rfl
  exact ⟨rfl, rfl, h2.2 "agA" (by decide)⟩

/-- C8: `execute` on a workflow id absent from the Registry fails with
`NotFound`, and the facade's Registry (agents and workflows alike) after the
call is identical to its contents before the call. -/
theorem execute_unknown_id_not_found (o : Orchestrator) (inv : Invoker)
    (dur : Nat → Nat) (t : Nat) (env : String) (wid : String) (input : Value)
    (h : o.registry.findWorkflow wid = none) :
    Orchestrator.run o inv dur t env wid input = (.error (.NotFound wid), o) ∧
    (Orchestrator.run o inv dur t env wid input).2.registry.agents =
      o.registry.agents ∧
    (Orchestrator.run o inv dur t env wid input).2.registry.workflows =
      o.registry.workflows := by
  refine ⟨?_, rfl, rfl⟩
  unfold Orchestrator.run
  rw [execute_none inv dur t env input h]

/-- Witness for C8: executing an unregistered workflow id fails with NotFound
and returns the facade unchanged. -/
theorem execute_unknown_id_not_found_witness :
    Orchestrator.run orchW invAB (fun _ => 1) 0 "node" "nope" (.str "t") =
      (.error (.NotFound "nope"), orchW) := by
  exact (execute_unknown_id_not_found orchW invAB (fun _ => 1) 0 "node" "nope"
    (.str "t") rfl).1

theorem stripDur_mkEntry (id : String) (d : Nat) (ok : Bool)
    (err : Option String) (mu : Option String) :
    stripDur (mkEntry id d ok err mu) = mkEntry id 0 ok err mu := rfl

theorem runBranches_deteq (ags : List Agent) (inv : Invoker)
    (dur₁ dur₂ : Nat → Nat) (input : Value) :
    ∀ (bs : List (String × String)) (st₁ st₂ : ExecState),
    stEquiv st₁ st₂ →
    brEquiv (runBranches ags inv dur₁ input st₁ bs)
      (runBranches ags inv dur₂ input st₂ bs) := by
  intro bs
  induction bs with
  | nil => intro st₁ st₂ h; exact ⟨rfl, h⟩
  | cons b rest ih =>
    intro st₁ st₂ h
    obtain ⟨bid, aid⟩ := b
    obtain ⟨hv, ha, hx, hh⟩ := h
    cases hf : findAgent ags aid with
    | none => simp only [runBranches, hf]; rfl
    | some ag =>
      have ha2 : resolveFallback inv ag 0 input st₂.aidx =
          resolveFallback inv ag 0 input st₁.aidx := by rw [← ha]
      simp only [runBranches, hf, ha2]
      cases hr : (resolveFallback inv ag 0 input st₁.aidx).1 with
      | ok v =>
        have hst' : stEquiv
            { st₁ with
              history := st₁.history ++ [mkEntry bid (dur₁ st₁.hidx) true none
                (resolveFallback inv ag 0 input st₁.aidx).2.1.getLast?],
              aidx := (resolveFallback inv ag 0 input st₁.aidx).2.2,
              hidx := st₁.hidx + 1 }
            { st₂ with
              history := st₂.history ++ [mkEntry bid (dur₂ st₂.hidx) true none
                (resolveFallback inv ag 0 input st₁.aidx).2.1.getLast?],
              aidx := (resolveFallback inv ag 0 input st₁.aidx).2.2,
              hidx := st₂.hidx + 1 } := by
          refine ⟨by simpa using hv, rfl, by simp [hx], ?_⟩
          simp [stripDur_mkEntry, hh]
        have hrec := ih _ _ hst'
        cases hrec₁ : runBranches ags inv dur₁ input
            { st₁ with
              history := st₁.history ++ [mkEntry bid (dur₁ st₁.hidx) true none
                (resolveFallback inv ag 0 input st₁.aidx).2.1.getLast?],
              aidx := (resolveFallback inv ag 0 input st₁.aidx).2.2,
              hidx := st₁.hidx + 1 } rest with
        | error e =>
          rw [hrec₁] at hrec
          cases hrec₂ : runBranches ags inv dur₂ input
              { st₂ with
                history := st₂.history ++ [mkEntry bid (dur₂ st₂.hidx) true none
                  (resolveFallback inv ag 0 input st₁.aidx).2.1.getLast?],
                aidx := (resolveFallback inv ag 0 input st₁.aidx).2.2,
                hidx := st₂.hidx + 1 } rest with
          | error e' => rw [hrec₂] at hrec; exact hrec
          | ok p => rw [hrec₂] at hrec; exact hrec.elim
        | ok p =>
          obtain ⟨res₁, st₁''⟩ := p
          rw [hrec₁] at hrec
          cases hrec₂ : runBranches ags inv dur₂ input
              { st₂ with
                history := st₂.history ++ [mkEntry bid (dur₂ st₂.hidx) true none
                  (resolveFallback inv ag 0 input st₁.aidx).2.1.getLast?],
                aidx := (resolveFallback inv ag 0 input st₁.aidx).2.2,
                hidx := st₂.hidx + 1 } rest with
          | error e' => rw [hrec₂] at hrec; exact hrec.elim
          | ok p' =>
            obtain ⟨res₂, st₂''⟩ := p'
            rw [hrec₂] at hrec
            obtain ⟨hres, hstE⟩ := hrec
            exact ⟨by rw [hres], hstE⟩
      | error es =>
        dsimp only
        have hst' : stEquiv
            { st₁ with
              history := st₁.history ++ [mkEntry bid (dur₁ st₁.hidx) false
                (some (errString (.AllModelsExhausted es)))
                (resolveFallback inv ag 0 input st₁.aidx).2.1.getLast?],
              aidx := (resolveFallback inv ag 0 input st₁.aidx).2.2,
              hidx := st₁.hidx + 1 }
            { st₂ with
              history := st₂.history ++ [mkEntry bid (dur₂ st₂.hidx) false
                (some (errString (.AllModelsExhausted es)))
                (resolveFallback inv ag 0 input st₁.aidx).2.1.getLast?],
              aidx := (resolveFallback inv ag 0 input st₁.aidx).2.2,
              hidx := st₂.hidx + 1 } := by
          refine ⟨by simpa using hv, rfl, by simp [hx], ?_⟩
          simp [stripDur_mkEntry, hh]
        have hrec := ih _ _ hst'
        cases hrec₁ : runBranches ags inv dur₁ input
            { st₁ with
              history := st₁.history ++ [mkEntry bid (dur₁ st₁.hidx) false
                (some (errString (.AllModelsExhausted es)))
                (resolveFallback inv ag 0 input st₁.aidx).2.1.getLast?],
              aidx := (resolveFallback inv ag 0 input st₁.aidx).2.2,
              hidx := st₁.hidx + 1 } rest with
        | error e =>
          rw [hrec₁] at hrec
          cases hrec₂ : runBranches ags inv dur₂ input
              { st₂ with
                history := st₂.history ++ [mkEntry bid (dur₂ st₂.hidx) false
                  (some (errString (.AllModelsExhausted es)))
                  (resolveFallback inv ag 0 input st₁.aidx).2.1.getLast?],
                aidx := (resolveFallback inv ag 0 input st₁.aidx).2.2,
                hidx := st₂.hidx + 1 } rest with
          | error e' => rw [hrec₂] at hrec; exact hrec
          | ok p => rw [hrec₂] at hrec; exact hrec.elim
        | ok p =>
          obtain ⟨res₁, st₁''⟩ := p
          rw [hrec₁] at hrec
          cases hrec₂ : runBranches ags inv dur₂ input
              { st₂ with
                history := st₂.history ++ [mkEntry bid (dur₂ st₂.hidx) false
                  (some (errString (.AllModelsExhausted es)))
                  (resolveFallback inv ag 0 input st₁.aidx).2.1.getLast?],
                aidx := (resolveFallback inv ag 0 input st₁.aidx).2.2,
                hidx := st₂.hidx + 1 } rest with
          | error e' => rw [hrec₂] at hrec; exact hrec.elim
          | ok p' =>
            obtain ⟨res₂, st₂''⟩ := p'
            rw [hrec₂] at hrec
            obtain ⟨hres, hstE⟩ := hrec
            exact ⟨by rw [hres], hstE⟩

theorem condCommit_equiv (id : String) {r₁ r₂ : StepRes}
    (h : resEquiv r₁ r₂) : resEquiv (condCommit id r₁) (condCommit id r₂) := by
  cases r₁ with
  | ok out₁ a =>
    cases r₂ with
    | ok out₂ b =>
      obtain ⟨rfl, hab⟩ := h
      obtain ⟨hv, ha, hx, hh⟩ := hab
      cases hs : VariableStore.set a.vars id out₁ with
      | error e =>
        have hs₂ : VariableStore.set b.vars id out₁ = .error e := by
          rw [← hv]; exact hs
        rw [condCommit_set_fault hs, condCommit_set_fault hs₂]
        rfl
      | ok vars' =>
        have hs₂ : VariableStore.set b.vars id out₁ = .ok vars' := by
          rw [← hv]; exact hs
        rw [condCommit_ok hs, condCommit_ok hs₂]
        exact ⟨rfl, rfl, ha, hx, hh⟩
    | failed e b => exact h.elim
    | fault e => exact h.elim
  | failed e a =>
    cases r₂ with
    | ok o b => exact h.elim
    | failed e' b => rw [condCommit_failed, condCommit_failed]; exact h
    | fault e' => exact h.elim
  | fault e =>
    cases r₂ with
    | ok o b => exact h.elim
    | failed e' b => exact h.elim
    | fault e' => rw [condCommit_fault, condCommit_fault]; exact h

mutual

theorem deteq_step (ags : List Agent) (inv : Invoker) (dur₁ dur₂ : Nat → Nat) :
    ∀ (s : Step) (input : Value) (st₁ st₂ : ExecState),
    stEquiv st₁ st₂ →
    resEquiv (execStep ags inv dur₁ input st₁ s)
      (execStep ags inv dur₂ input st₂ s) := by
  intro s input st₁ st₂ h
  obtain ⟨hv, ha, hx, hh⟩ := h
  cases s with
  | agent id aid tmo r =>
    rw [execStep_agent_eq, execStep_agent_eq]
    cases hf : findAgent ags aid with
    | none =>
      rw [execAgent_no_agent inv dur₁ id r input st₁ hf,
        execAgent_no_agent inv dur₂ id r input st₂ hf]
      rfl
    | some ag =>
      have ha2 : resolveFallback inv ag r input st₂.aidx =
          resolveFallback inv ag r input st₁.aidx := by rw [← ha]
      cases hr : (resolveFallback inv ag r input st₁.aidx).1 with
      | ok v =>
        have hr₂ : (resolveFallback inv ag r input st₂.aidx).1 = .ok v := by
          rw [ha2]; exact hr
        cases hs : VariableStore.set st₁.vars id v with
        | error e =>
          have hs₂ : VariableStore.set st₂.vars id v = .error e := by
            rw [← hv]; exact hs
          rw [execAgent_set_fault dur₁ hf hr hs,
            execAgent_set_fault dur₂ hf hr₂ hs₂]
          rfl
        | ok vars' =>
          have hs₂ : VariableStore.set st₂.vars id v = .ok vars' := by
            rw [← hv]; exact hs
          rw [execAgent_success dur₁ hf hr hs,
            execAgent_success dur₂ hf hr₂ hs₂]
          refine ⟨rfl, rfl, by rw [ha2], by rw [hx], ?_⟩
          simp [stripDur_mkEntry, hh, ha2]
      | error es =>
        have hr₂ : (resolveFallback inv ag r input st₂.aidx).1 = .error es := by
          rw [ha2]; exact hr
        rw [execAgent_exhausted dur₁ hf hr, execAgent_exhausted dur₂ hf hr₂]
        refine ⟨rfl, hv, by rw [ha2], by rw [hx], ?_⟩
        simp [stripDur_mkEntry, hh, ha2]
  | cond id c ts fs =>
    have hev2 : evalCond st₂.vars input c = evalCond st₁.vars input c := by
      rw [hv]
    cases hev : evalCond st₁.vars input c with
    | error e =>
      rw [execStep_cond_error id ts fs hev,
        execStep_cond_error id ts fs (by rw [hev2]; exact hev)]
      exact ⟨rfl, hv, ha, by rw [hx], by simp [stripDur_mkEntry, hh]⟩
    | ok b =>
      rw [execStep_cond_of_eval id ts fs hev,
        execStep_cond_of_eval id ts fs (by rw [hev2]; exact hev)]
      cases b with
      | true =>
        exact condCommit_equiv id
          (deteq_steps ags inv dur₁ dur₂ ts input st₁ st₂ ⟨hv, ha, hx, hh⟩)
      | false =>
        exact condCommit_equiv id
          (deteq_steps ags inv dur₁ dur₂ fs input st₁ st₂ ⟨hv, ha, hx, hh⟩)
  | par id bs =>
    rw [execStep_par_eq, execStep_par_eq]
    have hbr := runBranches_deteq ags inv dur₁ dur₂ input bs st₁ st₂
      ⟨hv, ha, hx, hh⟩
    cases hrun₁ : runBranches ags inv dur₁ input st₁ bs with
    | error e =>
      rw [hrun₁] at hbr
      cases hrun₂ : runBranches ags inv dur₂ input st₂ bs with
      | error e' =>
        rw [hrun₂] at hbr
        rw [execPar_branches_fault id hrun₁, execPar_branches_fault id hrun₂]
        exact hbr
      | ok p => rw [hrun₂] at hbr; exact hbr.elim
    | ok p =>
      obtain ⟨res₁, stP₁⟩ := p
      rw [hrun₁] at hbr
      cases hrun₂ : runBranches ags inv dur₂ input st₂ bs with
      | error e' => rw [hrun₂] at hbr; exact hbr.elim
      | ok p' =>
        obtain ⟨res₂, stP₂⟩ := p'
        rw [hrun₂] at hbr
        obtain ⟨hres, hPv, hPa, hPx, hPh⟩ := hbr
        subst hres
        cases hfb : firstBranchError res₁ with
        | some e =>
          rw [execPar_branch_failed id hrun₁ hfb,
            execPar_branch_failed id hrun₂ hfb]
          exact ⟨rfl, hPv, hPa, hPx, hPh⟩
        | none =>
          cases hs : VariableStore.set stP₁.vars id
              (.obj (res₁.map (fun p => (p.1, okValue p.2)))) with
          | error e =>
            have hs₂ : VariableStore.set stP₂.vars id
                (.obj (res₁.map (fun p => (p.1, okValue p.2)))) = .error e := by
              rw [← hPv]; exact hs
            rw [execPar_set_fault id hrun₁ hfb hs,
              execPar_set_fault id hrun₂ hfb hs₂]
            rfl
          | ok vars' =>
            have hs₂ : VariableStore.set stP₂.vars id
                (.obj (res₁.map (fun p => (p.1, okValue p.2)))) = .ok vars' := by
              rw [← hPv]; exact hs
            rw [execPar_success id hrun₁ hfb hs,
              execPar_success id hrun₂ hfb hs₂]
            exact ⟨rfl, rfl, hPa, hPx, hPh⟩

theorem deteq_steps (ags : List Agent) (inv : Invoker) (dur₁ dur₂ : Nat → Nat) :
    ∀ (l : List Step) (input : Value) (st₁ st₂ : ExecState),
    stEquiv st₁ st₂ →
    resEquiv (execSteps ags inv dur₁ input st₁ l)
      (execSteps ags inv dur₂ input st₂ l) := by
  intro l input st₁ st₂ h
  cases l with
  | nil =>
    rw [execSteps_nil_eq, execSteps_nil_eq]
    exact ⟨rfl, h⟩
  | cons s rest =>
    have IH1 := deteq_step ags inv dur₁ dur₂ s input st₁ st₂ h
    cases hres₁ : execStep ags inv dur₁ input st₁ s with
    | ok out₁ st₁' =>
      rw [hres₁] at IH1
      cases hres₂ : execStep ags inv dur₂ input st₂ s with
      | ok out₂ st₂' =>
        rw [hres₂] at IH1
        obtain ⟨rfl, hstE⟩ := IH1
        rw [execSteps_cons_ok rest hres₁, execSteps_cons_ok rest hres₂]
        exact deteq_steps ags inv dur₁ dur₂ rest out₁ st₁' st₂' hstE
      | failed e st₂' => rw [hres₂] at IH1; exact IH1.elim
      | fault e => rw [hres₂] at IH1; exact IH1.elim
    | failed e₁ st₁' =>
      rw [hres₁] at IH1
      cases hres₂ : execStep ags inv dur₂ input st₂ s with
      | ok out₂ st₂' => rw [hres₂] at IH1; exact IH1.elim
      | failed e₂ st₂' =>
        rw [hres₂] at IH1
        obtain ⟨rfl, hstE⟩ := IH1
        rw [execSteps_cons_failed rest hres₁, execSteps_cons_failed rest hres₂]
        exact ⟨rfl, hstE⟩
      | fault e => rw [hres₂] at IH1; exact IH1.elim
    | fault e₁ =>
      rw [hres₁] at IH1
      cases hres₂ : execStep ags inv dur₂ input st₂ s with
      | ok out₂ st₂' => rw [hres₂] at IH1; exact IH1.elim
      | failed e₂ st₂' => rw [hres₂] at IH1; exact IH1.elim
      | fault e₂ =>
        rw [hres₂] at IH1
        rw [execSteps_cons_fault rest hres₁, execSteps_cons_fault rest hres₂]
        exact IH1

end

/-- C9: with a deterministic ModelInvoker stub and an unchanged Registry, two
`execute` calls with the same workflow id and identical input — even under
different clocks and start times — produce results with identical variables
mappings (and identical success flags); only history timing may differ. -/
theorem execute_deterministic_variables (reg : Registry) (inv : Invoker)
    (dur₁ dur₂ : Nat → Nat) (t₁ t₂ : Nat) (env : String) (wid : String)
    (input : Value) :
    (execute reg inv dur₁ t₁ env wid input).map ExecutionResult.«variables» =
      (execute reg inv dur₂ t₂ env wid input).map ExecutionResult.«variables» ∧
    (execute reg inv dur₁ t₁ env wid input).map ExecutionResult.success =
      (execute reg inv dur₂ t₂ env wid input).map ExecutionResult.success := by
  cases hfw : reg.findWorkflow wid with
  | none =>
    rw [execute_none inv dur₁ t₁ env input hfw,
      execute_none inv dur₂ t₂ env input hfw]
    exact ⟨rfl, rfl⟩
  | some w =>
    have hd := deteq_steps reg.agents inv dur₁ dur₂ w.steps input
      initState initState ⟨rfl, rfl, rfl, rfl⟩
    cases hres₁ : execSteps reg.agents inv dur₁ input initState w.steps with
    | ok out₁ st₁ =>
      rw [hres₁] at hd
      cases hres₂ : execSteps reg.agents inv dur₂ input initState w.steps with
      | ok out₂ st₂ =>
        rw [hres₂] at hd
        obtain ⟨-, hv, -, -, -⟩ := hd
        rw [execute_some_ok t₁ env hfw hres₁, execute_some_ok t₂ env hfw hres₂]
        exact ⟨by simp [mkResult, hv, Except.map], by simp [mkResult, Except.map]⟩
      | failed e st₂ => rw [hres₂] at hd; exact hd.elim
      | fault e => rw [hres₂] at hd; exact hd.elim
    | failed e₁ st₁ =>
      rw [hres₁] at hd
      cases hres₂ : execSteps reg.agents inv dur₂ input initState w.steps with
      | ok out₂ st₂ => rw [hres₂] at hd; exact hd.elim
      | failed e₂ st₂ =>
        rw [hres₂] at hd
        obtain ⟨-, hv, -, -, -⟩ := hd
        rw [execute_some_failed t₁ env hfw hres₁,
          execute_some_failed t₂ env hfw hres₂]
        exact ⟨by simp [mkResult, hv, Except.map], by simp [mkResult, Except.map]⟩
      | fault e => rw [hres₂] at hd; exact hd.elim
    | fault e₁ =>
      rw [hres₁] at hd
      cases hres₂ : execSteps reg.agents inv dur₂ input initState w.steps with
      | ok out₂ st₂ => rw [hres₂] at hd; exact hd.elim
      | failed e₂ st₂ => rw [hres₂] at hd; exact hd.elim
      | fault e₂ =>
        rw [hres₂] at hd
        rw [execute_some_fault t₁ env hfw hres₁,
          execute_some_fault t₂ env hfw hres₂]
        rw [hd]
        exact ⟨rfl, rfl⟩

theorem demoMetricLines_getD (r : ExecutionResult) (i : Nat)
    (hi : i < r.history.length) :
    (demoMetricLines r).getD i "" = demoStepLine i (r.history.getD i default) := by
  unfold demoMetricLines
  have hlen : i < (r.history.enum.map
      (fun p => demoStepLine p.1 p.2)).length := by
    simpa using hi
  rw [List.getD_eq_getElem _ _ hlen, List.getElem_map, List.getElem_enum,
    List.getD_eq_getElem _ _ hi]

/-- C10: a returned ExecutionResult exposes elapsed time through the field
names `duration` (per HistoryEntry, equal to the clock reading of that entry)
and `totalDuration` (the whole call), its metadata additionally carries an
`environment` field naming the runtime environment, and the demo's metric line
reads `result.history[i].duration` directly. -/
theorem execution_result_field_names (reg : Registry) (inv : Invoker)
    (dur : Nat → Nat) (t : Nat) (env : String) (wid : String) (input : Value)
    (res : ExecutionResult)
    (h : execute reg inv dur t env wid input = .ok res) :
    res.metadata.environment = env ∧
    res.metadata.startTime = t ∧
    res.totalDuration = (res.history.map HistoryEntry.duration).sum ∧
    res.metadata.endTime = res.metadata.startTime + res.totalDuration ∧
    (∀ i, i < res.history.length →
      (res.history.getD i default).duration = dur i) ∧
    (∀ i, i < res.history.length →
      (demoMetricLines res).getD i "" =
        toString (i + 1) ++ ". " ++ (res.history.getD i default).stepId ++
          ": " ++ toString (dur i) ++ "ms") := by
  have key : ∀ (ok : Bool) (st : ExecState),
      resStateOf (execSteps reg.agents inv dur input initState
        (match reg.findWorkflow wid with
         | some w => w.steps
         | none => [])) = some st →
      mkResult wid t env ok st = res →
      res.metadata.environment = env ∧
      res.metadata.startTime = t ∧
      res.totalDuration = (res.history.map HistoryEntry.duration).sum ∧
      res.metadata.endTime = res.metadata.startTime + res.totalDuration ∧
      (∀ i, i < res.history.length →
        (res.history.getD i default).duration = dur i) ∧
      (∀ i, i < res.history.length →
        (demoMetricLines res).getD i "" =
          toString (i + 1) ++ ". " ++ (res.history.getD i default).stepId ++
            ": " ++ toString (dur i) ++ "ms") := by
    intro ok st hst hmk
    obtain ⟨Δ, hhist, -, -, hdur⟩ := hist_steps reg.agents inv dur _ input
      initState st hst
    have hsth : st.history = Δ := by simpa [initState] using hhist
    have hdur' : ∀ i, i < res.history.length →
        (res.history.getD i default).duration = dur i := by
      intro i hi
      rw [← hmk] at hi ⊢
      show ((mkResult wid t env ok st).history.getD i default).duration = dur i
      have hIlen : i < Δ.length := by
        rw [← hsth]
        simpa [mkResult] using hi
      have := hdur i hIlen
      simp only [initState] at this
      simpa [mkResult, hsth] using this
    refine ⟨by rw [← hmk]; rfl, by rw [← hmk]; rfl, by rw [← hmk]; rfl,
      by rw [← hmk]; rfl, hdur', ?_⟩
    intro i hi
    rw [demoMetricLines_getD res i hi, demoStepLine, hdur' i hi]
  cases hfw : reg.findWorkflow wid with
  | none => rw [execute_none inv dur t env input hfw] at h; cases h
  | some w =>
    cases hres : execSteps reg.agents inv dur input initState w.steps with
    | ok out st =>
      rw [execute_some_ok t env hfw hres] at h
      refine key true st ?_ (by injection h)
      rw [hfw]
      rw [hres]
      rfl
    | failed e st =>
      rw [execute_some_failed t env hfw hres] at h
      refine key false st ?_ (by injection h)
      rw [hfw]
      rw [hres]
      rfl
    | fault e =>
      rw [execute_some_fault t env hfw hres] at h
      cases h

/-- Witness for C10: the concrete two-step run exposes its timing through
`duration`, `totalDuration` and `metadata.environment`, and the demo line for
entry 1 prints the engine-recorded duration of that entry. -/
theorem execution_result_field_names_witness :
    resOkW.metadata.environment = "node" ∧
    resOkW.metadata.startTime = 7 ∧
    resOkW.totalDuration = (resOkW.history.map HistoryEntry.duration).sum ∧
    (resOkW.history.getD 1 default).duration = 13 ∧
    (demoMetricLines resOkW).getD 1 "" = "2. s2: 13ms" := by
  have h := execution_result_field_names regOk invOk (fun i => 10 * i + 3) 7
    "node" "wfOk" (.str "t") resOkW rfl
  refine ⟨h.1, h.2.1, h.2.2.1, ?_, ?_⟩
  · exact h.2.2.2.2.1 1 (by decide)
  · exact rfl

end Orch
